import Mathlib

/-!
# Verification of the seating-chart designer's geometry and assignment engine

Shallow embedding of the core logic of `src/App.jsx`, `src/canvasRenderer.js`
and the data-model module (`models.js`, provided unnamed in the repository
snapshot).  JavaScript numbers are modelled as `ℚ` (the code only ever
combines them by field operations, `Math.round`, `Math.min`/`max`/`abs`),
except for the trigonometric seat-ring geometry which is modelled over `ℝ`.
JavaScript objects used as seat-assignment maps (`entity.assignments`) are
modelled as association lists with the JS object semantics: a key occurs at
most once, writing `{...m, [k]: v}` replaces the binding of `k`,
`delete m[k]` removes it.  Two maps are compared extensionally (`MapEq`),
matching JS objects as maps up to key insertion order.

Seat keys: tables use the integer seat index (`Nat`), chair blocks use the
`"r-c"` composite key, modelled as `Nat × Nat` (the code writes these keys
only through `r-c` templates of natural numbers, which that encoding
reflects bijectively).
-/

namespace Seating

/-- Association list with JS-object map semantics.  `K` is the key type,
`α` the value type. -/
abbrev AssignMap (K : Type) (α : Type) := List (K × α)

variable {K : Type} [DecidableEq K] {α : Type}

/-- Lookup of a key (JS `m[k]`, with `undefined` as `none`). -/
def lookupK : AssignMap K α → K → Option α
  | [], _ => none
  | p :: m, k => if p.1 = k then some p.2 else lookupK m k

/-- Removal of a key (JS `delete m[k]`). -/
def eraseK : AssignMap K α → K → AssignMap K α
  | [], _ => []
  | p :: m, k => if p.1 = k then eraseK m k else p :: eraseK m k

/-- Write of a key (JS `m[k] = v` and `{...m, [k]: v}`), as a map. -/
def insertK (m : AssignMap K α) (k : K) (v : α) : AssignMap K α :=
  (k, v) :: eraseK m k

/-- The key list of a map. -/
def keysK (m : AssignMap K α) : List K := m.map (·.1)

/-- Extensional equality of maps: same value at every key.  This is equality
of the underlying JS objects as maps (ignoring key insertion order). -/
def MapEq (m₁ m₂ : AssignMap K α) : Prop := ∀ k, lookupK m₁ k = lookupK m₂ k

/-! ## Data model (`models.js`)

Entity structures as produced by `createTable`, `createChairBlock` and
`createVenueElement`.  Coordinates and sizes are in feet. -/

/-- `tableType` field: `'round'` or `'rect'`. -/
inductive TableType | round | rect
  deriving DecidableEq, Repr

/-- `orientation` field of a rectangular table. -/
inductive Orientation | horizontal | vertical
  deriving DecidableEq, Repr

/-- `spacing` field of a chair block. -/
inductive Spacing | tight | normal | wide
  deriving DecidableEq, Repr

/-- A table (`createTable`).  For round tables `widthFt` is the diameter and
`seats` the ring capacity; for rectangular tables `seats` is the per-long-side
seat count and `endSeats` the per-end seat count.  `x, y` is the center. -/
structure Table where
  id : Nat
  x : ℚ
  y : ℚ
  tableType : TableType
  name : String
  seats : Nat
  widthFt : ℚ
  heightFt : ℚ
  color : String
  orientation : Orientation
  endSeats : Nat
  locked : Bool
  assignments : AssignMap Nat Nat
  deriving DecidableEq, Repr

/-- A chair block (`createChairBlock`).  `x, y` is the top-left corner;
seat keys are `(row, col)` pairs. -/
structure Block where
  id : Nat
  x : ℚ
  y : ℚ
  rows : Nat
  cols : Nat
  name : String
  color : String
  spacing : Spacing
  locked : Bool
  assignments : AssignMap (Nat × Nat) Nat
  deriving DecidableEq, Repr

/-- A venue element (`createVenueElement`).  `x, y` is the center. -/
structure Venue where
  id : Nat
  x : ℚ
  y : ℚ
  elementType : String
  name : String
  widthFt : ℚ
  heightFt : ℚ
  color : String
  locked : Bool
  deriving DecidableEq, Repr

/-- `getTableTotalSeats` from `models.js`. -/
def getTableTotalSeats (t : Table) : Nat :=
  if t.tableType = .round then t.seats else t.seats * 2 + t.endSeats * 2

/-- `getBlockChairSpacing` from `models.js`: `tight=1.5, normal=2, wide=2.5`. -/
def getBlockChairSpacing (b : Block) : ℚ :=
  match b.spacing with
  | .tight => 3/2
  | .normal => 2
  | .wide => 5/2

/-- `getBlockDimensions` from `models.js`. -/
def getBlockDimensions (b : Block) : ℚ × ℚ :=
  (b.cols * getBlockChairSpacing b, b.rows * getBlockChairSpacing b)

/-- `buildAssignedSet` from `models.js`: all attendee indices currently seated
at any table or block.  The JS function returns a `Set`; the model returns the
underlying value list (one occurrence per assignment pair), so membership
agrees with `Set.has` and counting occurrences counts assignment pairs. -/
def buildAssignedSet (tables : List Table) (blocks : List Block) : List Nat :=
  (tables.map fun t => t.assignments.map (·.2)).flatten ++
    (blocks.map fun b => b.assignments.map (·.2)).flatten

/-! ## Snap engine (`App.jsx` lines 156–173)

`snap` is `Math.round(v / gridSize) * gridSize` under the
`snapEnabled && gridSize > 0` gate; JS `Math.round x = ⌊x + 1/2⌋`, which is
Mathlib's `round` on `ℚ`. -/

/-- `snap` from `App.jsx` line 156. -/
def snap (snapEnabled : Bool) (gridSize : ℚ) (v : ℚ) : ℚ :=
  if snapEnabled ∧ 0 < gridSize then (round (v / gridSize) : ℤ) * gridSize else v

/-- The dragged/placed entity as passed to `snapEntityPos` together with its
`eType` string (`'table'`, `'block'`, `'venue'`); the code always passes the
matching pair, so the tag is carried by the constructor. -/
inductive AnyEntity
  | tab (t : Table)
  | blk (b : Block)
  | ven (v : Venue)
  deriving DecidableEq, Repr

/-- `locked` field of any entity. -/
def AnyEntity.locked : AnyEntity → Bool
  | .tab t => t.locked
  | .blk b => b.locked
  | .ven v => v.locked

/-- `snapEntityPos` from `App.jsx` lines 159–173.  Round tables and blocks
snap `(rawX, rawY)` directly; every other entity (rectangular tables *and*
venue elements) converts center → top-left corner, snaps the corner, and
converts back. -/
def snapEntityPos (snapEnabled : Bool) (gridSize : ℚ) (rawX rawY : ℚ)
    (entity : AnyEntity) : ℚ × ℚ :=
  if ¬ snapEnabled ∨ gridSize ≤ 0 then (rawX, rawY)
  else
    let sn := snap snapEnabled gridSize
    match entity with
    | .tab t =>
      if t.tableType = .round then (sn rawX, sn rawY)
      else
        let w := t.widthFt
        let h := t.heightFt
        (sn (rawX - w / 2) + w / 2, sn (rawY - h / 2) + h / 2)
    | .blk _ => (sn rawX, sn rawY)
    | .ven v =>
      let w := v.widthFt
      let h := v.heightFt
      (sn (rawX - w / 2) + w / 2, sn (rawY - h / 2) + h / 2)

/-- `v` is an integer multiple of the grid pitch `g`. -/
def IsGridMultiple (g v : ℚ) : Prop := ∃ z : ℤ, v = z * g

/-- `v` is a nearest multiple of `g` to `raw`: on the grid and within half a
pitch of the raw coordinate. -/
def NearestGrid (g raw v : ℚ) : Prop := IsGridMultiple g v ∧ |v - raw| ≤ g / 2

/-- A sample venue element used in concrete instantiations. -/
def venueW : Venue :=
  { id := 1, x := 10, y := 10, elementType := "dance_floor", name := "",
    widthFt := 3, heightFt := 3, color := "#D4AF37", locked := false }

/-- A sample round table used in concrete instantiations. -/
def tableW : Table :=
  { id := 1, x := 10, y := 10, tableType := .round, name := "", seats := 8,
    widthFt := 5, heightFt := 5, color := "#8B4513",
    orientation := .horizontal, endSeats := 0, locked := false,
    assignments := [] }

/-- A sample rectangular table used in concrete instantiations. -/
def rectTableW : Table :=
  { id := 2, x := 20, y := 10, tableType := .rect, name := "", seats := 3,
    widthFt := 6, heightFt := 3, color := "#2E86AB",
    orientation := .horizontal, endSeats := 1, locked := false,
    assignments := [] }

/-- A sample chair block used in concrete instantiations. -/
def blockW : Block :=
  { id := 1, x := 5, y := 5, rows := 2, cols := 3, name := "",
    color := "#4A4A4A", spacing := .normal, locked := false,
    assignments := [] }

/-! ## Interaction state: entity drags (`handleCanvasMouseMove`, lines 1100–1153)

The application state mutated by a drag, and the two drag branches of the
mouse-move handler.  `dx, dy` are the pointer displacement from the drag
start in feet (`pxToFt(x - dragRef.current.startX)` in the code).  `saveUndo`
is external (an undo stack); the model counts its invocations. -/

/-- The domain state held in React state: entity collections plus the status
line. -/
structure State where
  tables : List Table
  chairBlocks : List Block
  venueElements : List Venue
  status : String
  deriving DecidableEq, Repr

/-- State of an in-progress drag: the domain state, the `dragRef.hasMoved`
flag, and the number of `saveUndo` calls made so far. -/
structure DragState where
  st : State
  hasMoved : Bool
  undoCount : Nat
  deriving DecidableEq, Repr

/-- Entity-kind tag as used in selection and drag items. -/
inductive EKind | table | block | venue
  deriving DecidableEq, Repr

/-- One entry of `dragRef.current.multiDrag`: the type, id and original
position of a selected entity captured at mouse-down. -/
structure MDItem where
  type : EKind
  id : Nat
  origX : ℚ
  origY : ℚ
  deriving DecidableEq, Repr

/-- Clamp of a coordinate to the room (`Math.max(0, Math.min(room, v))`). -/
def clampRoom (room v : ℚ) : ℚ := max 0 (min room v)

/-- The drag hysteresis test `Math.abs(dx) > 0.5 || Math.abs(dy) > 0.5`. -/
def exceedsB (dx dy : ℚ) : Bool := decide (1/2 < |dx|) || decide (1/2 < |dy|)

/-- Displacement at or below the 0.5 ft threshold on both axes (the negation
of the hysteresis test). -/
def BelowThresh (e : ℚ × ℚ) : Prop := |e.1| ≤ 1/2 ∧ |e.2| ≤ 1/2

instance (e : ℚ × ℚ) : Decidable (BelowThresh e) := by
  unfold BelowThresh; infer_instance

/-- Every displacement of the list stays at or below the threshold. -/
def AllBelow (evs : List (ℚ × ℚ)) : Prop := ∀ e ∈ evs, BelowThresh e

/-- Multi-drag branch of `handleCanvasMouseMove` (lines 1100–1128): build the
per-kind position-update maps from the captured items (later items replace
earlier ones, as with `Map.set`), then apply them to each collection.  No
lock check and no snapping occur on this path. -/
def multiDragMove (roomW roomH : ℚ) (items : List MDItem) (dx dy : ℚ)
    (ds : DragState) : DragState :=
  let fire := !ds.hasMoved && exceedsB dx dy
  let hasMoved' := ds.hasMoved || fire
  let undo' := ds.undoCount + if fire then 1 else 0
  let st' :=
    if hasMoved' then
      let newPos := fun (it : MDItem) =>
        (clampRoom roomW (it.origX + dx), clampRoom roomH (it.origY + dy))
      let tableUpdates : AssignMap Nat (ℚ × ℚ) := items.foldl
        (fun acc it => if it.type = .table then insertK acc it.id (newPos it) else acc) []
      let blockUpdates : AssignMap Nat (ℚ × ℚ) := items.foldl
        (fun acc it => if it.type = .block then insertK acc it.id (newPos it) else acc) []
      let venueUpdates : AssignMap Nat (ℚ × ℚ) := items.foldl
        (fun acc it => if it.type = .venue then insertK acc it.id (newPos it) else acc) []
      { ds.st with
        tables := ds.st.tables.map fun t =>
          match lookupK tableUpdates t.id with
          | some p => { t with x := p.1, y := p.2 }
          | none => t
        chairBlocks := ds.st.chairBlocks.map fun b =>
          match lookupK blockUpdates b.id with
          | some p => { b with x := p.1, y := p.2 }
          | none => b
        venueElements := ds.st.venueElements.map fun v =>
          match lookupK venueUpdates v.id with
          | some p => { v with x := p.1, y := p.2 }
          | none => v }
    else ds.st
  ⟨st', hasMoved', undo'⟩

/-- Single-drag branch of `handleCanvasMouseMove` (lines 1131–1153): returns
unchanged if the captured entity snapshot is locked; otherwise applies the
hysteresis, clamps, snaps and writes the new position of the entity with the
snapshot's id in its collection. -/
def singleDragMove (snapEnabled : Bool) (gridSize roomW roomH : ℚ)
    (item : AnyEntity) (origX origY : ℚ) (dx dy : ℚ) (ds : DragState) :
    DragState :=
  if item.locked then ds
  else
    let fire := !ds.hasMoved && exceedsB dx dy
    let hasMoved' := ds.hasMoved || fire
    let undo' := ds.undoCount + if fire then 1 else 0
    let st' :=
      if hasMoved' then
        let rawX := clampRoom roomW (origX + dx)
        let rawY := clampRoom roomH (origY + dy)
        let snapped := snapEntityPos snapEnabled gridSize rawX rawY item
        match item with
        | .tab t =>
          { ds.st with tables := ds.st.tables.map fun e =>
              if e.id = t.id then { e with x := snapped.1, y := snapped.2 } else e }
        | .blk b =>
          { ds.st with chairBlocks := ds.st.chairBlocks.map fun e =>
              if e.id = b.id then { e with x := snapped.1, y := snapped.2 } else e }
        | .ven v =>
          { ds.st with venueElements := ds.st.venueElements.map fun e =>
              if e.id = v.id then { e with x := snapped.1, y := snapped.2 } else e }
      else ds.st
    ⟨st', hasMoved', undo'⟩

/-- A drag session: fold the single-drag branch over a list of pointer
displacements. -/
def runSingleDrag (snapEnabled : Bool) (gridSize roomW roomH : ℚ)
    (item : AnyEntity) (origX origY : ℚ) (ds : DragState)
    (evs : List (ℚ × ℚ)) : DragState :=
  evs.foldl (fun a e => singleDragMove snapEnabled gridSize roomW roomH
    item origX origY e.1 e.2 a) ds

/-- A multi-drag session: fold the multi-drag branch over a list of pointer
displacements. -/
def runMultiDrag (roomW roomH : ℚ) (items : List MDItem) (ds : DragState)
    (evs : List (ℚ × ℚ)) : DragState :=
  evs.foldl (fun a e => multiDragMove roomW roomH items e.1 e.2 a) ds

/-! ## Assignment model (`App.jsx` lines 847–940, `rotateSelected` 403–440)

Seat references carry the `entityType`/`entityId`/`seatKey` triple of the
JS calls; `.t` is `entityType === 'table'`, `.b` is `'block'`. -/

/-- A `(entityType, entityId, seatKey)` triple. -/
inductive SeatRef
  | t (eid : Nat) (key : Nat)
  | b (eid : Nat) (key : Nat × Nat)
  deriving DecidableEq, Repr

/-- `assignAttendee` (lines 847–857): no-op when the attendee is disabled;
no-op with status `'Already assigned'` when the attendee is seated anywhere
(`assigned.has(attIdx)` over `buildAssignedSet`); otherwise writes the seat
mapping of every entity with the given id.  Note: no seat-occupancy check. -/
def assignAttendee (disabled : List Nat) (st : State) (ref : SeatRef)
    (attIdx : Nat) : State :=
  if attIdx ∈ disabled then st
  else if attIdx ∈ buildAssignedSet st.tables st.chairBlocks then
    { st with status := "Already assigned" }
  else
    match ref with
    | .t eid key =>
      { st with
        tables := st.tables.map fun t =>
          if t.id = eid then
            { t with assignments := insertK t.assignments key attIdx } else t
        status := "Assigned" }
    | .b eid key =>
      { st with
        chairBlocks := st.chairBlocks.map fun b =>
          if b.id = eid then
            { b with assignments := insertK b.assignments key attIdx } else b
        status := "Assigned" }

/-- The per-entity updater of `swapSeats` (lines 882–898): exchange the two
occupants, or move the single occupant, or do nothing. -/
def swapUpdater (a b : K) (m : AssignMap K Nat) : AssignMap K Nat :=
  match lookupK m a, lookupK m b with
  | some av, some bv => insertK (insertK m a bv) b av
  | some av, none => eraseK (insertK m b av) a
  | none, some bv => eraseK (insertK m a bv) b
  | none, none => m

/-- The effect of `swapSeats` on one entity's assignment map, including the
`seatKeyA === seatKeyB` early return (line 880). -/
def swapApply (a b : K) (m : AssignMap K Nat) : AssignMap K Nat :=
  if a = b then m else swapUpdater a b m

/-- `swapSeats` (lines 879–902) with `entityType === 'table'`. -/
def swapSeatsT (st : State) (eid : Nat) (a b : Nat) : State :=
  if a = b then st
  else
    { st with
      tables := st.tables.map fun t =>
        if t.id = eid then { t with assignments := swapUpdater a b t.assignments }
        else t
      status := "Seats swapped" }

/-- `swapSeats` (lines 879–902) with `entityType === 'block'`. -/
def swapSeatsB (st : State) (eid : Nat) (a b : Nat × Nat) : State :=
  if a = b then st
  else
    { st with
      chairBlocks := st.chairBlocks.map fun bl =>
        if bl.id = eid then
          { bl with assignments := swapUpdater a b bl.assignments }
        else bl
      status := "Seats swapped" }

/-- The source-collection step of `moveSeatToSeat` (lines 911–919): delete
the seat key from every matching table and capture the occupant read from
the last matching table (`attIdx = e.assignments[srcKey]`, `undefined` and
the initial `null` both as `none`). -/
def takeT (ts : List Table) (eid : Nat) (k : Nat) :
    List Table × Option Nat :=
  (ts.map fun t =>
      if t.id = eid then { t with assignments := eraseK t.assignments k }
      else t,
    ts.foldl (fun acc t => if t.id = eid then lookupK t.assignments k else acc)
      none)

/-- The source-collection step of `moveSeatToSeat` over chair blocks. -/
def takeB (bs : List Block) (eid : Nat) (k : Nat × Nat) :
    List Block × Option Nat :=
  (bs.map fun b =>
      if b.id = eid then { b with assignments := eraseK b.assignments k }
      else b,
    bs.foldl (fun acc b => if b.id = eid then lookupK b.assignments k else acc)
      none)

/-- The destination-collection step of `moveSeatToSeat` (lines 922–927) over
tables. -/
def putT (ts : List Table) (eid : Nat) (k : Nat) (v : Nat) : List Table :=
  ts.map fun t =>
    if t.id = eid then { t with assignments := insertK t.assignments k v }
    else t

/-- The destination-collection step of `moveSeatToSeat` over chair blocks. -/
def putB (bs : List Block) (eid : Nat) (k : Nat × Nat) (v : Nat) :
    List Block :=
  bs.map fun b =>
    if b.id = eid then { b with assignments := insertK b.assignments k v }
    else b

/-- `moveSeatToSeat` (lines 904–929): same entity delegates to `swapSeats`;
otherwise remove from the source, then — unless nothing was found — assign at
the destination. -/
def moveSeatToSeat (st : State) (src dst : SeatRef) : State :=
  match src, dst with
  | .t si sk, .t di dk =>
    if si = di then swapSeatsT st si sk dk
    else
      let r := takeT st.tables si sk
      let st1 := { st with tables := r.1 }
      match r.2 with
      | none => st1
      | some v => { st1 with
          tables := putT st1.tables di dk v
          status := "Moved" }
  | .t si sk, .b di dk =>
    let r := takeT st.tables si sk
    let st1 := { st with tables := r.1 }
    match r.2 with
    | none => st1
    | some v => { st1 with
        chairBlocks := putB st1.chairBlocks di dk v
        status := "Moved" }
  | .b si sk, .t di dk =>
    let r := takeB st.chairBlocks si sk
    let st1 := { st with chairBlocks := r.1 }
    match r.2 with
    | none => st1
    | some v => { st1 with
        tables := putT st1.tables di dk v
        status := "Moved" }
  | .b si sk, .b di dk =>
    if si = di then swapSeatsB st si sk dk
    else
      let r := takeB st.chairBlocks si sk
      let st1 := { st with chairBlocks := r.1 }
      match r.2 with
      | none => st1
      | some v => { st1 with
          chairBlocks := putB st1.chairBlocks di dk v
          status := "Moved" }

/-- `forceAssignSeat` (lines 931–940): like `assignAttendee` but without the
already-seated check. -/
def forceAssignSeat (disabled : List Nat) (st : State) (ref : SeatRef)
    (attIdx : Nat) : State :=
  if attIdx ∈ disabled then st
  else
    match ref with
    | .t eid key =>
      { st with
        tables := st.tables.map fun t =>
          if t.id = eid then
            { t with assignments := insertK t.assignments key attIdx } else t
        status := "Assigned" }
    | .b eid key =>
      { st with
        chairBlocks := st.chairBlocks.map fun b =>
          if b.id = eid then
            { b with assignments := insertK b.assignments key attIdx } else b
        status := "Assigned" }

/-- The seat-key enumeration of `assignNextAvailable` (lines 957–965):
`0 .. total-1` for tables, row-major `(r, c)` pairs for blocks. -/
def blockSeatKeys (rows cols : Nat) : List (Nat × Nat) :=
  (List.range rows).flatMap fun r => (List.range cols).map fun c => (r, c)

/-- `assignNextAvailable` (lines 950–969): no-op if the attendee is disabled
or already seated, or the entity is absent or full; otherwise force-assign at
the first seat key not present in the entity's assignments. -/
def assignNextAvailable (disabled : List Nat) (st : State)
    (etype : EKind) (eid : Nat) (attIdx : Nat) : State :=
  if attIdx ∈ disabled then st
  else if attIdx ∈ buildAssignedSet st.tables st.chairBlocks then st
  else
    match etype with
    | .table =>
      match st.tables.find? (fun t => t.id = eid) with
      | none => st
      | some t =>
        match (List.range (getTableTotalSeats t)).find?
            (fun k => lookupK t.assignments k = none) with
        | none => { st with status := "Table full" }
        | some k => forceAssignSeat disabled st (.t eid k) attIdx
    | .block =>
      match st.chairBlocks.find? (fun b => b.id = eid) with
      | none => st
      | some b =>
        match (blockSeatKeys b.rows b.cols).find?
            (fun k => lookupK b.assignments k = none) with
        | none => { st with status := "Table full" }
        | some k => forceAssignSeat disabled st (.b eid k) attIdx
    | .venue => st

/-- One operation of the assignment model, as dispatched by the UI paths. -/
inductive AssignOp
  | assign (ref : SeatRef) (attIdx : Nat)
  | swapT (eid : Nat) (a b : Nat)
  | swapB (eid : Nat) (a b : Nat × Nat)
  | move (src dst : SeatRef)
  deriving DecidableEq, Repr

/-- Application of one assignment-model operation. -/
def applyOp (disabled : List Nat) (st : State) : AssignOp → State
  | .assign ref attIdx => assignAttendee disabled st ref attIdx
  | .swapT eid a b => swapSeatsT st eid a b
  | .swapB eid a b => swapSeatsB st eid a b
  | .move src dst => moveSeatToSeat st src dst

/-- Application of a sequence of assignment-model operations. -/
def applyOps (disabled : List Nat) (st : State) (ops : List AssignOp) :
    State :=
  ops.foldl (applyOp disabled) st

/-- Number of value occurrences of attendee `i` in one assignment map. -/
def cntV (i : Nat) (m : AssignMap K Nat) : Nat := (m.map (·.2)).count i

/-- Number of `(entity, seatKey)` pairs over the tables seating `i`. -/
def tcnt (i : Nat) (ts : List Table) : Nat :=
  (ts.map fun t => cntV i t.assignments).sum

/-- Number of `(entity, seatKey)` pairs over the blocks seating `i`. -/
def bcnt (i : Nat) (bs : List Block) : Nat :=
  (bs.map fun b => cntV i b.assignments).sum

/-- Well-formedness of a state as produced by the app: per-kind entity ids
are unique (ids come from monotone counters), every JS assignment object has
unique keys, and no attendee is seated twice (the invariant of the model). -/
def WFState (st : State) : Prop :=
  (st.tables.map (·.id)).Nodup ∧ (st.chairBlocks.map (·.id)).Nodup ∧
  (∀ t ∈ st.tables, (keysK t.assignments).Nodup) ∧
  (∀ b ∈ st.chairBlocks, (keysK b.assignments).Nodup) ∧
  (buildAssignedSet st.tables st.chairBlocks).Nodup

instance (st : State) : Decidable (WFState st) := by
  unfold WFState; infer_instance

/-! ## Seat rotation (`rotateSelected`, `App.jsx` lines 403–440) -/

/-- The cyclic shift of `rotateSelected` for round tables:
`total >= 4 ? Math.floor(total / 4) : 1`. -/
def rotShift (total : Nat) : Nat := if 4 ≤ total then total / 4 else 1

/-- One step of rebuilding an assignment object from remapped entries:
insert at the remapped key when the keep-condition holds (later entries
overwrite earlier ones, as JS property writes do). -/
def remapStep {K K' : Type} [DecidableEq K'] (rk : K → K') (keep : K → Bool)
    (acc : AssignMap K' Nat) (p : K × Nat) : AssignMap K' Nat :=
  if keep p.1 then insertK acc (rk p.1) p.2 else acc

/-- The new assignment object built by the round-table branch (lines
417–420): each entry `k ↦ v` is written at `(Number(k) + shift) % total`. -/
def rotateSeatsMap (total : Nat) (m : AssignMap Nat Nat) : AssignMap Nat Nat :=
  m.foldl (remapStep (fun k => (k + rotShift total) % total) (fun _ => true)) []

/-- The round-table branch of `rotateSelected` (lines 413–423): rotates only
when `total > 0` and the assignment object is non-empty. -/
def rotateSeatsTable (t : Table) : Table :=
  if 0 < t.seats ∧ t.assignments ≠ [] then
    { t with assignments := rotateSeatsMap t.seats t.assignments }
  else t

/-- The new assignment object built by the block branch (lines 426–433):
entry `(r, c) ↦ v` is written at `(nr, nc) = (c, oldRows - 1 - r)` when
`nr ≥ 0 && nr < oldCols && nc ≥ 0 && nc < oldRows` (JS numbers; `nc` is
modelled in `ℤ` since `oldRows - 1 - r` can be negative). -/
def rotateBlockMap (oldRows oldCols : Nat) (m : AssignMap (Nat × Nat) Nat) :
    AssignMap (Nat × Nat) Nat :=
  m.foldl (remapStep
    (fun rc => (rc.2, ((oldRows : ℤ) - 1 - rc.1).toNat))
    (fun rc => decide (rc.2 < oldCols ∧ 0 ≤ (oldRows : ℤ) - 1 - rc.1 ∧
      (oldRows : ℤ) - 1 - rc.1 < oldRows))) []

/-- The block branch of `rotateSelected` (lines 424–435): remap the
assignments and swap `rows`/`cols`. -/
def rotateBlock (b : Block) : Block :=
  { b with
    rows := b.cols
    cols := b.rows
    assignments := rotateBlockMap b.rows b.cols b.assignments }

/-- In-bounds keys and JS-object key uniqueness of a block assignment map
for a `rows × cols` grid. -/
def WFBlockMap (m : AssignMap (Nat × Nat) Nat) (rows cols : Nat) : Prop :=
  (∀ p ∈ m, p.1.1 < rows ∧ p.1.2 < cols) ∧ (keysK m).Nodup

instance (m : AssignMap (Nat × Nat) Nat) (rows cols : Nat) :
    Decidable (WFBlockMap m rows cols) := by
  unfold WFBlockMap; infer_instance

/-- C7's property as a predicate: every assignment of the round table moves
from seat `k` to seat `(k + shift) % seats`. -/
def RotateSeatsSpec (t : Table) : Prop :=
  ∀ k : Nat, k < t.seats →
    lookupK (rotateSeatsTable t).assignments ((k + rotShift t.seats) % t.seats)
      = lookupK t.assignments k

/-- C8's property as a predicate: four rotations restore `rows`, `cols` and
the assignment map. -/
def RotateBlockFourSpec (b : Block) : Prop :=
  (rotateBlock (rotateBlock (rotateBlock (rotateBlock b)))).rows = b.rows ∧
  (rotateBlock (rotateBlock (rotateBlock (rotateBlock b)))).cols = b.cols ∧
  MapEq
    (rotateBlock (rotateBlock (rotateBlock (rotateBlock b)))).assignments
    b.assignments

/-- Whether the seat referenced by a canvas seat hit is occupied
(`seatInfo.seatKey in seatInfo.entity.assignments`).  `seatHitTest` hands the
handler the entity itself; the model reads the entity with the hit's id from
the state the hit was computed against (`find?`, matching the first entity,
as all reads do under unique ids). -/
def seatOccupied (st : State) (ref : SeatRef) : Bool :=
  match ref with
  | .t eid k =>
    match st.tables.find? (fun t => t.id = eid) with
    | some t => (lookupK t.assignments k).isSome
    | none => false
  | .b eid k =>
    match st.chairBlocks.find? (fun b => b.id = eid) with
    | some b => (lookupK b.assignments k).isSome
    | none => false

/-- The entity-hit fallback of the attendee-drop branch of
`handleCanvasMouseUp` (lines 1176–1180): if `hitTest` reported a table or a
block, auto-assign to its next open seat; otherwise do nothing.  The hit
result is a parameter (the handler computes it from pixel coordinates). -/
def canvasDropFallback (disabled : List Nat) (st : State)
    (tableHit : Option (EKind × Nat)) (att : Nat) : State :=
  match tableHit with
  | some (EKind.table, eid) => assignNextAvailable disabled st .table eid att
  | some (EKind.block, eid) => assignNextAvailable disabled st .block eid att
  | _ => st

/-- The attendee-drop branch of `handleCanvasMouseUp` (lines 1169–1186): if
the pointer is over an *unoccupied* seat, assign there (non-forcing);
otherwise — occupied seat or no seat hit — fall back to the entity hit.  The
two hit-test results are parameters. -/
def canvasDropAttendee (disabled : List Nat) (st : State)
    (seatInfo : Option SeatRef) (tableHit : Option (EKind × Nat))
    (att : Nat) : State :=
  match seatInfo with
  | some ref =>
    if seatOccupied st ref = false then assignAttendee disabled st ref att
    else canvasDropFallback disabled st tableHit att
  | none => canvasDropFallback disabled st tableHit att

/-- Every `(entity, seatKey)` pair occupied in `s` holds the same occupant in
`s'` (entities identified by position; the drop paths never reorder the
collections). -/
def OccupantsPreserved (s s' : State) : Prop :=
  (∀ n : Nat, ∀ t t' : Table, s.tables[n]? = some t →
    s'.tables[n]? = some t' → ∀ k v, lookupK t.assignments k = some v →
      lookupK t'.assignments k = some v) ∧
  (∀ n : Nat, ∀ b b' : Block, s.chairBlocks[n]? = some b →
    s'.chairBlocks[n]? = some b' → ∀ k v, lookupK b.assignments k = some v →
      lookupK b'.assignments k = some v)

/-- A locked round table used in concrete instantiations. -/
def lockedTableW : Table :=
  { tableW with id := 3, locked := true }

/-- A one-table state used in concrete drag instantiations. -/
def mdStateW : State :=
  { tables := [lockedTableW], chairBlocks := [], venueElements := [],
    status := "" }

/-- The undo checkpoint is captured exactly at the first
threshold-crossing displacement of the session: zero `saveUndo` calls after
any all-below prefix, one call once the first crossing event is processed. -/
def CheckpointAtFirstCross (snapEnabled : Bool) (gridSize roomW roomH : ℚ)
    (item : AnyEntity) (origX origY : ℚ) (st : State)
    (evs : List (ℚ × ℚ)) : Prop :=
  ∀ pfx e sfx, evs = pfx ++ e :: sfx → AllBelow pfx → ¬ BelowThresh e →
    (runSingleDrag snapEnabled gridSize roomW roomH item origX origY
      ⟨st, false, 0⟩ pfx).undoCount = 0 ∧
    (runSingleDrag snapEnabled gridSize roomW roomH item origX origY
      ⟨st, false, 0⟩ (pfx ++ [e])).undoCount = 1

/-- A table with one assignment, for concrete instantiations. -/
def rotTableW : Table :=
  { tableW with assignments := [(0, 3)] }

/-- A block with two assignments, for concrete instantiations. -/
def rotBlockW : Block :=
  { blockW with assignments := [((0, 0), 1), ((1, 2), 4)] }

/-- A well-formed two-entity state for concrete instantiations. -/
def exclStateW : State :=
  { tables := [rotTableW], chairBlocks := [rotBlockW], venueElements := [],
    status := "" }

/-- A sample operation sequence: an assign, a swap, and a cross-entity
move. -/
def exclOpsW : List AssignOp :=
  [.assign (.t 1 2) 5, .swapT 1 0 2, .move (.t 1 2) (.b 1 (0, 1))]

/-- A state with an occupied seat (attendee 7 at seat 0 of table 1). -/
def occStateW : State :=
  { tables := [{ tableW with assignments := [(0, 7)] }], chairBlocks := [],
    venueElements := [], status := "" }

/-! ### Round-table seat geometry (`canvasRenderer.js`, `drawTable` round
branch and `seatHitTest` round branch)

Both the renderer and the hit test compute, for seat `i` of a round table
with `n = t.seats` seats drawn at pixel scale `scale` with canvas offsets
`ox, oy`:

  cx = ox + t.x * scale, cy = oy + t.y * scale,
  r = (t.widthFt * scale) / 2, sr = 0.75 * scale,
  seatGap = max 3 (scale * 0.2), d = r + sr + seatGap,
  a = 2 * pi * i / n - pi / 2,
  seat center = (cx + d * cos a, cy + d * sin a).
-/

noncomputable def seatAngle (seats i : Nat) : ℝ :=
  2 * Real.pi * i / seats - Real.pi / 2

noncomputable def roundTableCenter (t : Table) (scale ox oy : ℝ) : ℝ × ℝ :=
  (ox + (t.x : ℝ) * scale, oy + (t.y : ℝ) * scale)

noncomputable def roundSeatRingRadius (t : Table) (scale : ℝ) : ℝ :=
  ((t.widthFt : ℝ) * scale) / 2 + 0.75 * scale + max 3 (scale * 0.2)

noncomputable def roundSeatPos (t : Table) (scale ox oy : ℝ) (i : Nat) : ℝ × ℝ :=
  let cx := ox + (t.x : ℝ) * scale
  let cy := oy + (t.y : ℝ) * scale
  let r := ((t.widthFt : ℝ) * scale) / 2
  let sr := 0.75 * scale
  let seatGap := max 3 (scale * 0.2)
  let a := 2 * Real.pi * i / t.seats - Real.pi / 2
  let d := r + sr + seatGap
  (cx + d * Real.cos a, cy + d * Real.sin a)

noncomputable def roundSeatPositions (t : Table) (scale ox oy : ℝ) : List (ℝ × ℝ) :=
  (List.range t.seats).map (roundSeatPos t scale ox oy)

/-- The ring property claimed for round-table seats: there are exactly
`t.seats` positions, each on the ring of radius
`tableRadius + seatRadius + gap` about the table center, seat 0 directly
above the center (canvas north), and each successive seat advancing by an
angle of `2 * pi / seats` (clockwise in the y-down canvas frame). -/
def RoundSeatSpec (t : Table) (scale ox oy : ℝ) : Prop :=
  (roundSeatPositions t scale ox oy).length = t.seats ∧
  (∀ p ∈ roundSeatPositions t scale ox oy,
    (p.1 - (roundTableCenter t scale ox oy).1) ^ 2 +
      (p.2 - (roundTableCenter t scale ox oy).2) ^ 2 =
      roundSeatRingRadius t scale ^ 2) ∧
  (roundSeatPositions t scale ox oy)[0]? =
    some ((roundTableCenter t scale ox oy).1,
      (roundTableCenter t scale ox oy).2 - roundSeatRingRadius t scale) ∧
  (∀ i : Nat, seatAngle t.seats (i + 1) - seatAngle t.seats i =
    2 * Real.pi / t.seats) ∧
  (∀ i : Nat, (roundSeatPositions t scale ox oy)[i]? =
    if i < t.seats then
      some ((roundTableCenter t scale ox oy).1 +
          roundSeatRingRadius t scale * Real.cos (seatAngle t.seats i),
        (roundTableCenter t scale ox oy).2 +
          roundSeatRingRadius t scale * Real.sin (seatAngle t.seats i))
    else none)

omit [DecidableEq K] in
@[simp] theorem keysK_nil : keysK ([] : AssignMap K α) = [] := rfl

omit [DecidableEq K] in
@[simp] theorem keysK_cons (p : K × α) (m : AssignMap K α) :
    keysK (p :: m) = p.1 :: keysK m := rfl

theorem lookupK_eraseK_self :
    ∀ (m : AssignMap K α) (k : K), lookupK (eraseK m k) k = none
  | [], _ => rfl
  | (k₀, v₀) :: m, k => by
    by_cases h : k₀ = k
    · simpa [eraseK, h] using lookupK_eraseK_self m k
    · simp [eraseK, lookupK, h, lookupK_eraseK_self m k]

theorem lookupK_eraseK_ne :
    ∀ (m : AssignMap K α) {k k' : K}, k' ≠ k →
      lookupK (eraseK m k) k' = lookupK m k'
  | [], _, _, _ => rfl
  | (k₀, v₀) :: m, k, k', h => by
    by_cases h₀ : k₀ = k
    · simp [eraseK, h₀, lookupK, Ne.symm h, lookupK_eraseK_ne m h]
    · simp [eraseK, h₀, lookupK, lookupK_eraseK_ne m h]

theorem lookupK_insertK_self (m : AssignMap K α) (k : K) (v : α) :
    lookupK (insertK m k v) k = some v := by
  simp [insertK, lookupK]

theorem lookupK_insertK_ne (m : AssignMap K α) {k k' : K} (v : α) (h : k' ≠ k) :
    lookupK (insertK m k v) k' = lookupK m k' := by
  have : ¬ k = k' := fun hk => h hk.symm
  simp [insertK, lookupK, this, lookupK_eraseK_ne m h]

theorem eraseK_comm :
    ∀ (m : AssignMap K α) (a b : K),
      eraseK (eraseK m a) b = eraseK (eraseK m b) a
  | [], _, _ => rfl
  | (k₀, v₀) :: m, a, b => by
    by_cases ha : k₀ = a <;> by_cases hb : k₀ = b
    · have hab : a = b := ha.symm.trans hb
      subst hab; rfl
    · have hab : ¬ a = b := fun hx => hb (ha.trans hx)
      simp [eraseK, ha, hb, hab, eraseK_comm m a b]
    · have hab : ¬ b = a := fun hx => ha (hb.trans hx)
      simp [eraseK, ha, hb, hab, eraseK_comm m a b]
    · simp [eraseK, ha, hb, eraseK_comm m a b]

theorem eraseK_eraseK_self :
    ∀ (m : AssignMap K α) (a : K), eraseK (eraseK m a) a = eraseK m a
  | [], _ => rfl
  | (k₀, v₀) :: m, a => by
    by_cases ha : k₀ = a <;> simp [eraseK, ha, eraseK_eraseK_self m a]

theorem eraseK_insertK_ne (m : AssignMap K α) {a b : K} (v : α) (h : b ≠ a) :
    eraseK (insertK m a v) b = insertK (eraseK m b) a v := by
  have : ¬ a = b := fun hk => h hk.symm
  simp [insertK, eraseK, this, eraseK_comm]

theorem mem_keysK_of_lookupK_some :
    ∀ {m : AssignMap K α} {k : K} {v : α},
      lookupK m k = some v → k ∈ keysK m
  | [], k, v, h => by simp [lookupK] at h
  | (k₀, v₀) :: m, k, v, h => by
    by_cases h₀ : k₀ = k
    · simp [h₀]
    · simp only [lookupK] at h
      rw [if_neg h₀] at h
      simp only [keysK_cons, List.mem_cons]
      exact Or.inr (mem_keysK_of_lookupK_some h)

theorem eraseK_of_not_mem_keysK :
    ∀ {m : AssignMap K α} {k : K}, k ∉ keysK m → eraseK m k = m
  | [], _, _ => rfl
  | (k₀, v₀) :: m, k, h => by
    simp only [keysK_cons, List.mem_cons, not_or] at h
    have h₀ : ¬ k₀ = k := fun hk => h.1 hk.symm
    simp [eraseK, h₀, eraseK_of_not_mem_keysK h.2]

theorem not_mem_keysK_of_lookupK_none :
    ∀ {m : AssignMap K α} {k : K}, lookupK m k = none → k ∉ keysK m
  | [], k, _ => by simp
  | (k₀, v₀) :: m, k, h => by
    by_cases h₀ : k₀ = k
    · simp [lookupK, h₀] at h
    · simp only [lookupK] at h
      rw [if_neg h₀] at h
      simp only [keysK_cons, List.mem_cons, not_or]
      exact ⟨fun hk => h₀ hk.symm, not_mem_keysK_of_lookupK_none h⟩

theorem lookupK_eq_none_of_not_mem {m : AssignMap K α} {k : K}
    (h : k ∉ keysK m) : lookupK m k = none := by
  cases hv : lookupK m k with
  | none => rfl
  | some v => exact absurd (mem_keysK_of_lookupK_some hv) h

theorem eraseK_of_lookupK_none {m : AssignMap K α} {k : K}
    (h : lookupK m k = none) : eraseK m k = m :=
  eraseK_of_not_mem_keysK (not_mem_keysK_of_lookupK_none h)

theorem keysK_eraseK_subset :
    ∀ {m : AssignMap K α} {k k' : K}, k' ∈ keysK (eraseK m k) → k' ∈ keysK m
  | [], _, _, h => by simp [eraseK] at h
  | (k₀, v₀) :: m, k, k', h => by
    by_cases h₀ : k₀ = k
    · simp only [eraseK] at h
      rw [if_pos h₀] at h
      exact List.mem_cons_of_mem _ (keysK_eraseK_subset h)
    · simp only [eraseK] at h
      rw [if_neg h₀] at h
      simp only [keysK_cons, List.mem_cons] at h ⊢
      exact h.imp id keysK_eraseK_subset

theorem keysK_nodup_eraseK :
    ∀ {m : AssignMap K α} (k : K), (keysK m).Nodup → (keysK (eraseK m k)).Nodup
  | [], _, _ => by simp [eraseK]
  | (k₀, v₀) :: m, k, h => by
    simp only [keysK_cons, List.nodup_cons] at h
    by_cases h₀ : k₀ = k
    · simp only [eraseK]
      rw [if_pos h₀]
      exact keysK_nodup_eraseK k h.2
    · simp only [eraseK]
      rw [if_neg h₀]
      simp only [keysK_cons, List.nodup_cons]
      exact ⟨fun hmem => h.1 (keysK_eraseK_subset hmem), keysK_nodup_eraseK k h.2⟩

theorem keysK_nodup_insertK {m : AssignMap K α} (k : K) (v : α)
    (h : (keysK m).Nodup) : (keysK (insertK m k v)).Nodup := by
  simp only [insertK, keysK_cons, List.nodup_cons]
  exact ⟨not_mem_keysK_of_lookupK_none (lookupK_eraseK_self m k),
    keysK_nodup_eraseK k h⟩

theorem snap_nearest {g : ℚ} (hg : 0 < g) (v : ℚ) :
    NearestGrid g v (snap true g v) := by
  have hs : snap true g v = (round (v / g) : ℤ) * g := by simp [snap, hg]
  constructor
  · exact ⟨round (v / g), hs⟩
  · rw [hs]
    have h1 : ((round (v / g) : ℤ) : ℚ) * g - v = ((round (v / g) : ℤ) - v / g) * g := by
      field_simp
    rw [h1, abs_mul, abs_of_pos hg]
    have h2 : |((round (v / g) : ℤ) : ℚ) - v / g| ≤ 1 / 2 := by
      rw [abs_sub_comm]
      exact abs_sub_round (v / g)
    calc |((round (v / g) : ℤ) : ℚ) - v / g| * g ≤ 1 / 2 * g := by
          exact mul_le_mul_of_nonneg_right h2 (le_of_lt hg)
      _ = g / 2 := by ring

/-- C10: with snapping disabled or a non-positive grid size, `snapEntityPos`
returns its raw input unchanged for every entity kind. -/
theorem snapEntityPos_disabled_id (se : Bool) (g x y : ℚ) (e : AnyEntity)
    (h : se = false ∨ g ≤ 0) : snapEntityPos se g x y e = (x, y) := by
  have hc : ¬ (se : Prop) ∨ g ≤ 0 := by
    rcases h with h | h
    · exact Or.inl (by simp [h])
    · exact Or.inr h
  simp only [snapEntityPos]
  rw [if_pos hc]

/-- C10 witness: identity at a concrete disabled-snap input. -/
theorem snapEntityPos_disabled_id_witness :
    snapEntityPos false 2 (7/2) (9/4) (.ven venueW) = (7/2, 9/4) :=
  snapEntityPos_disabled_id false 2 (7/2) (9/4) (.ven venueW) (Or.inl rfl)

/-- C5 counterexample: a venue element does *not* snap its center to the
nearest grid multiple.  With a 3 ft wide element at raw center `x = 2.2` and
`gridSize = 2`, the code converts to the top-left corner (`0.7`), snaps it to
`0`, and returns center `1.5`, whereas center snapping would give `2`. -/
theorem venue_snap_not_center :
    snapEntityPos true 2 (11/5) (11/5) (.ven venueW) ≠
      (snap true 2 (11/5), snap true 2 (11/5)) := by
  have h1 : snapEntityPos true 2 (11/5) (11/5) (.ven venueW) = (3/2, 3/2) := by
    norm_num [snapEntityPos, snap, venueW, round_eq]
  have h2 : snap true 2 (11/5) = 2 := by
    norm_num [snap, round_eq]
  rw [h1, h2]
  norm_num

/-- C5 (amended): anchor semantics of grid snapping per entity kind — round
tables snap their center; chair blocks snap their stored top-left corner;
rectangular tables *and venue elements* snap their top-left corner (converted
from the center and back), so the snapped corner, not the center, lands on a
nearest grid multiple. -/
theorem snapEntityPos_anchor_semantics (g x y : ℚ) (hg : 0 < g)
    (t : Table) (b : Block) (v : Venue) :
    (t.tableType = .round →
      NearestGrid g x (snapEntityPos true g x y (.tab t)).1 ∧
      NearestGrid g y (snapEntityPos true g x y (.tab t)).2) ∧
    (NearestGrid g x (snapEntityPos true g x y (.blk b)).1 ∧
      NearestGrid g y (snapEntityPos true g x y (.blk b)).2) ∧
    (t.tableType = .rect →
      NearestGrid g (x - t.widthFt / 2)
        ((snapEntityPos true g x y (.tab t)).1 - t.widthFt / 2) ∧
      NearestGrid g (y - t.heightFt / 2)
        ((snapEntityPos true g x y (.tab t)).2 - t.heightFt / 2)) ∧
    (NearestGrid g (x - v.widthFt / 2)
      ((snapEntityPos true g x y (.ven v)).1 - v.widthFt / 2) ∧
      NearestGrid g (y - v.heightFt / 2)
        ((snapEntityPos true g x y (.ven v)).2 - v.heightFt / 2)) := by
  have hgle : ¬ g ≤ 0 := not_le.mpr hg
  refine ⟨?_, ?_, ?_, ?_⟩
  · intro hr
    simp only [snapEntityPos, not_true, false_or, if_neg hgle, hr, if_pos rfl]
    exact ⟨snap_nearest hg x, snap_nearest hg y⟩
  · simp only [snapEntityPos, not_true, false_or, if_neg hgle]
    exact ⟨snap_nearest hg x, snap_nearest hg y⟩
  · intro hr
    have hr' : ¬ t.tableType = TableType.round := by simp [hr]
    simp only [snapEntityPos, not_true, false_or, if_neg hgle, if_neg hr']
    constructor
    · simpa using snap_nearest hg (x - t.widthFt / 2)
    · simpa using snap_nearest hg (y - t.heightFt / 2)
  · simp only [snapEntityPos, not_true, false_or, if_neg hgle]
    constructor
    · simpa using snap_nearest hg (x - v.widthFt / 2)
    · simpa using snap_nearest hg (y - v.heightFt / 2)

theorem exceedsB_eq_false_iff (e : ℚ × ℚ) :
    exceedsB e.1 e.2 = false ↔ BelowThresh e := by
  simp [exceedsB, BelowThresh, not_lt]

/-- C5 witness: the amended anchor semantics at a concrete grid and input. -/
theorem snapEntityPos_anchor_semantics_witness :
    (tableW.tableType = .round →
      NearestGrid 2 (11/5) (snapEntityPos true 2 (11/5) (11/5) (.tab tableW)).1 ∧
      NearestGrid 2 (11/5) (snapEntityPos true 2 (11/5) (11/5) (.tab tableW)).2) ∧
    (NearestGrid 2 (11/5) (snapEntityPos true 2 (11/5) (11/5) (.blk blockW)).1 ∧
      NearestGrid 2 (11/5) (snapEntityPos true 2 (11/5) (11/5) (.blk blockW)).2) ∧
    (tableW.tableType = .rect →
      NearestGrid 2 (11/5 - tableW.widthFt / 2)
        ((snapEntityPos true 2 (11/5) (11/5) (.tab tableW)).1 - tableW.widthFt / 2) ∧
      NearestGrid 2 (11/5 - tableW.heightFt / 2)
        ((snapEntityPos true 2 (11/5) (11/5) (.tab tableW)).2 - tableW.heightFt / 2)) ∧
    (NearestGrid 2 (11/5 - venueW.widthFt / 2)
      ((snapEntityPos true 2 (11/5) (11/5) (.ven venueW)).1 - venueW.widthFt / 2) ∧
      NearestGrid 2 (11/5 - venueW.heightFt / 2)
        ((snapEntityPos true 2 (11/5) (11/5) (.ven venueW)).2 - venueW.heightFt / 2)) :=
  snapEntityPos_anchor_semantics 2 (11/5) (11/5) (by norm_num) tableW blockW venueW

/-- C3 counterexample: a locked entity *is* moved by the multi-drag branch.
A locked table at `(10, 10)` dragged (as part of a multi-selection) by
`dx = 1` ends at `(11, 10)`: the multi-drag path consults no lock flag. -/
theorem multi_drag_moves_locked_entity :
    lockedTableW.locked = true ∧
    ((multiDragMove 60 40 [⟨EKind.table, 3, 10, 10⟩] 1 0
        ⟨mdStateW, false, 0⟩).st.tables.map fun t => (t.x, t.y)) = [(11, 10)] ∧
    (mdStateW.tables.map fun t => (t.x, t.y)) = [(10, 10)] := by
  refine ⟨rfl, ?_, rfl⟩
  have hexc : exceedsB 1 0 = true := by
    simp [exceedsB]
    norm_num
  simp [multiDragMove, hexc, clampRoom, mdStateW, lockedTableW, tableW,
    insertK, eraseK, lookupK, min_def, max_def]
  norm_num

/-- C3 (amended): in a *single-entity* drag a locked entity never moves — the
handler returns before any mutation, leaving the whole drag state (positions,
hysteresis flag and undo count) unchanged.  The multi-drag branch performs no
lock check (see the counterexample). -/
theorem single_drag_locked_noop (snapEnabled : Bool) (gridSize roomW roomH : ℚ)
    (item : AnyEntity) (origX origY dx dy : ℚ) (ds : DragState)
    (h : item.locked = true) :
    singleDragMove snapEnabled gridSize roomW roomH item origX origY dx dy ds
      = ds := by
  simp [singleDragMove, h]

/-- C3 witness: the locked single-drag no-op at a concrete input. -/
theorem single_drag_locked_noop_witness :
    singleDragMove true 1 60 40 (.tab lockedTableW) 10 10 3 0
      ⟨mdStateW, false, 0⟩ = ⟨mdStateW, false, 0⟩ :=
  single_drag_locked_noop true 1 60 40 (.tab lockedTableW) 10 10 3 0
    ⟨mdStateW, false, 0⟩ rfl

theorem singleDragMove_below (snapEnabled : Bool) (gridSize roomW roomH : ℚ)
    (item : AnyEntity) (origX origY : ℚ) {dx dy : ℚ} {ds : DragState}
    (hb : BelowThresh (dx, dy)) (hm : ds.hasMoved = false) :
    singleDragMove snapEnabled gridSize roomW roomH item origX origY dx dy ds
      = ds := by
  have he : exceedsB dx dy = false := (exceedsB_eq_false_iff (dx, dy)).mpr hb
  obtain ⟨st, hmv, u⟩ := ds
  simp only [DragState.hasMoved] at hm
  subst hm
  by_cases hl : item.locked = true
  · simp [singleDragMove, hl]
  · simp [singleDragMove, hl, he]

theorem multiDragMove_below (roomW roomH : ℚ) (items : List MDItem)
    {dx dy : ℚ} {ds : DragState}
    (hb : BelowThresh (dx, dy)) (hm : ds.hasMoved = false) :
    multiDragMove roomW roomH items dx dy ds = ds := by
  have he : exceedsB dx dy = false := (exceedsB_eq_false_iff (dx, dy)).mpr hb
  obtain ⟨st, hmv, u⟩ := ds
  simp only [DragState.hasMoved] at hm
  subst hm
  simp [multiDragMove, he]

theorem singleDragMove_eta (snapEnabled : Bool) (gridSize roomW roomH : ℚ)
    (item : AnyEntity) (origX origY dx dy : ℚ) (ds : DragState)
    (hl : item.locked = false) :
    singleDragMove snapEnabled gridSize roomW roomH item origX origY dx dy ds
      = ⟨(singleDragMove snapEnabled gridSize roomW roomH item origX origY dx
            dy ds).st,
          ds.hasMoved || exceedsB dx dy,
          ds.undoCount + (if ds.hasMoved = false ∧ exceedsB dx dy = true
            then 1 else 0)⟩ := by
  cases hm : ds.hasMoved <;> cases he : exceedsB dx dy <;>
    simp [singleDragMove, hl, hm, he]

theorem multiDragMove_eta (roomW roomH : ℚ) (items : List MDItem)
    (dx dy : ℚ) (ds : DragState) :
    multiDragMove roomW roomH items dx dy ds
      = ⟨(multiDragMove roomW roomH items dx dy ds).st,
          ds.hasMoved || exceedsB dx dy,
          ds.undoCount + (if ds.hasMoved = false ∧ exceedsB dx dy = true
            then 1 else 0)⟩ := by
  cases hm : ds.hasMoved <;> cases he : exceedsB dx dy <;>
    simp [multiDragMove, hm, he]

theorem runSingleDrag_below (snapEnabled : Bool) (gridSize roomW roomH : ℚ)
    (item : AnyEntity) (origX origY : ℚ) :
    ∀ (evs : List (ℚ × ℚ)), AllBelow evs → ∀ ds : DragState,
      ds.hasMoved = false →
      runSingleDrag snapEnabled gridSize roomW roomH item origX origY ds evs
        = ds
  | [], _, ds, _ => rfl
  | e :: evs, hall, ds, hm => by
    have hb : BelowThresh e := hall e (List.mem_cons_self e evs)
    have hstep : singleDragMove snapEnabled gridSize roomW roomH item origX
        origY e.1 e.2 ds = ds :=
      singleDragMove_below snapEnabled gridSize roomW roomH item origX origY
        (by simpa using hb) hm
    have htail : AllBelow evs := fun f hf => hall f (List.mem_cons_of_mem e hf)
    simpa [runSingleDrag, hstep] using
      runSingleDrag_below snapEnabled gridSize roomW roomH item origX origY
        evs htail ds hm

theorem runMultiDrag_below (roomW roomH : ℚ) (items : List MDItem) :
    ∀ (evs : List (ℚ × ℚ)), AllBelow evs → ∀ ds : DragState,
      ds.hasMoved = false → runMultiDrag roomW roomH items ds evs = ds
  | [], _, ds, _ => rfl
  | e :: evs, hall, ds, hm => by
    have hb : BelowThresh e := hall e (List.mem_cons_self e evs)
    have hstep : multiDragMove roomW roomH items e.1 e.2 ds = ds :=
      multiDragMove_below roomW roomH items (by simpa using hb) hm
    have htail : AllBelow evs := fun f hf => hall f (List.mem_cons_of_mem e hf)
    simpa [runMultiDrag, hstep] using
      runMultiDrag_below roomW roomH items evs htail ds hm

theorem runSingleDrag_undo (snapEnabled : Bool) (gridSize roomW roomH : ℚ)
    (item : AnyEntity) (origX origY : ℚ) (hl : item.locked = false) :
    ∀ (evs : List (ℚ × ℚ)) (ds : DragState),
      (runSingleDrag snapEnabled gridSize roomW roomH item origX origY ds
          evs).hasMoved = (ds.hasMoved || evs.any fun e => exceedsB e.1 e.2) ∧
      (runSingleDrag snapEnabled gridSize roomW roomH item origX origY ds
          evs).undoCount = ds.undoCount +
        (if ds.hasMoved = false ∧ (evs.any fun e => exceedsB e.1 e.2) = true
          then 1 else 0)
  | [], ds => by simp [runSingleDrag]
  | e :: evs, ds => by
    have hrun : runSingleDrag snapEnabled gridSize roomW roomH item origX
        origY ds (e :: evs) = runSingleDrag snapEnabled gridSize roomW roomH
        item origX origY (singleDragMove snapEnabled gridSize roomW roomH
          item origX origY e.1 e.2 ds) evs := rfl
    rw [hrun, singleDragMove_eta snapEnabled gridSize roomW roomH item origX
      origY e.1 e.2 ds hl]
    obtain ⟨ih1, ih2⟩ := runSingleDrag_undo snapEnabled gridSize roomW roomH
      item origX origY hl evs
      ⟨(singleDragMove snapEnabled gridSize roomW roomH item origX origY e.1
          e.2 ds).st,
        ds.hasMoved || exceedsB e.1 e.2,
        ds.undoCount + (if ds.hasMoved = false ∧ exceedsB e.1 e.2 = true
          then 1 else 0)⟩
    constructor
    · rw [ih1]
      cases hm : ds.hasMoved <;> cases he : exceedsB e.1 e.2 <;>
        simp [hm, he, List.any_cons]
    · rw [ih2]
      cases hm : ds.hasMoved <;> cases he : exceedsB e.1 e.2 <;>
        cases ha : (evs.any fun f => exceedsB f.1 f.2) <;>
        simp [hm, he, ha, List.any_cons]

theorem runMultiDrag_undo (roomW roomH : ℚ) (items : List MDItem) :
    ∀ (evs : List (ℚ × ℚ)) (ds : DragState),
      (runMultiDrag roomW roomH items ds evs).hasMoved
          = (ds.hasMoved || evs.any fun e => exceedsB e.1 e.2) ∧
      (runMultiDrag roomW roomH items ds evs).undoCount = ds.undoCount +
        (if ds.hasMoved = false ∧ (evs.any fun e => exceedsB e.1 e.2) = true
          then 1 else 0)
  | [], ds => by simp [runMultiDrag]
  | e :: evs, ds => by
    have hrun : runMultiDrag roomW roomH items ds (e :: evs)
        = runMultiDrag roomW roomH items
          (multiDragMove roomW roomH items e.1 e.2 ds) evs := rfl
    rw [hrun, multiDragMove_eta roomW roomH items e.1 e.2 ds]
    obtain ⟨ih1, ih2⟩ := runMultiDrag_undo roomW roomH items evs
      ⟨(multiDragMove roomW roomH items e.1 e.2 ds).st,
        ds.hasMoved || exceedsB e.1 e.2,
        ds.undoCount + (if ds.hasMoved = false ∧ exceedsB e.1 e.2 = true
          then 1 else 0)⟩
    constructor
    · rw [ih1]
      cases hm : ds.hasMoved <;> cases he : exceedsB e.1 e.2 <;>
        simp [hm, he, List.any_cons]
    · rw [ih2]
      cases hm : ds.hasMoved <;> cases he : exceedsB e.1 e.2 <;>
        cases ha : (evs.any fun f => exceedsB f.1 f.2) <;>
        simp [hm, he, ha, List.any_cons]

/-- C4: drag hysteresis.  Starting a drag session (single- or multi-entity)
with `hasMoved = false` and no undo checkpoints: (1) while every displacement
stays at or below 0.5 ft on both axes, the whole drag state — entity
positions included — is unchanged and no checkpoint is captured; (2) over any
session the checkpoint count is 1 if some displacement exceeded the threshold
and 0 otherwise (never more than once); (3) the single checkpoint is captured
exactly when the first crossing event is processed. -/
theorem drag_hysteresis (snapEnabled : Bool) (gridSize roomW roomH : ℚ)
    (item : AnyEntity) (origX origY : ℚ) (st : State)
    (items : List MDItem) (evs : List (ℚ × ℚ))
    (hl : item.locked = false) :
    (AllBelow evs →
      runSingleDrag snapEnabled gridSize roomW roomH item origX origY
        ⟨st, false, 0⟩ evs = ⟨st, false, 0⟩ ∧
      runMultiDrag roomW roomH items ⟨st, false, 0⟩ evs = ⟨st, false, 0⟩) ∧
    ((runSingleDrag snapEnabled gridSize roomW roomH item origX origY
        ⟨st, false, 0⟩ evs).undoCount =
      if evs.any (fun e => exceedsB e.1 e.2) then 1 else 0) ∧
    ((runMultiDrag roomW roomH items ⟨st, false, 0⟩ evs).undoCount =
      if evs.any (fun e => exceedsB e.1 e.2) then 1 else 0) ∧
    CheckpointAtFirstCross snapEnabled gridSize roomW roomH item origX origY
      st evs := by
  refine ⟨?_, ?_, ?_, ?_⟩
  · intro hall
    exact ⟨runSingleDrag_below snapEnabled gridSize roomW roomH item origX
        origY evs hall ⟨st, false, 0⟩ rfl,
      runMultiDrag_below roomW roomH items evs hall ⟨st, false, 0⟩ rfl⟩
  · have h := (runSingleDrag_undo snapEnabled gridSize roomW roomH item origX
      origY hl evs ⟨st, false, 0⟩).2
    cases ha : (evs.any fun e => exceedsB e.1 e.2) <;>
      rw [ha] at h <;> simpa [ha] using h
  · have h := (runMultiDrag_undo roomW roomH items evs ⟨st, false, 0⟩).2
    cases ha : (evs.any fun e => exceedsB e.1 e.2) <;>
      rw [ha] at h <;> simpa [ha] using h
  · intro pfx e sfx heq hpfx hcross
    have hexc : exceedsB e.1 e.2 = true := by
      cases he : exceedsB e.1 e.2
      · exact absurd ((exceedsB_eq_false_iff e).mp he) hcross
      · rfl
    have hanyp : (pfx.any fun f => exceedsB f.1 f.2) = false := by
      rw [List.any_eq_false]
      intro f hf
      simp [(exceedsB_eq_false_iff f).mpr (hpfx f hf)]
    constructor
    · have h := (runSingleDrag_undo snapEnabled gridSize roomW roomH item
        origX origY hl pfx ⟨st, false, 0⟩).2
      simpa [hanyp] using h
    · have h := (runSingleDrag_undo snapEnabled gridSize roomW roomH item
        origX origY hl (pfx ++ [e]) ⟨st, false, 0⟩).2
      simpa [List.any_append, hanyp, hexc] using h

/-- C9: swapping the same two seats twice restores the entity's assignment
map (as a JS object, i.e. extensionally), in all cases: both seats occupied,
exactly one occupied (a move), neither occupied, or `A = B` (early return).
`swapApply` is the per-entity effect of `swapSeats`. -/
theorem swap_twice_restores (m : AssignMap K Nat) (a b : K) :
    MapEq (swapApply a b (swapApply a b m)) m := by
  by_cases hab : a = b
  · subst hab
    intro k
    simp [swapApply]
  · have hba : b ≠ a := fun h => hab h.symm
    cases ha : lookupK m a with
    | some av =>
      cases hb : lookupK m b with
      | some bv =>
        have h1 : swapApply a b m = insertK (insertK m a bv) b av := by
          simp [swapApply, hab, swapUpdater, ha, hb]
        have hla : lookupK (insertK (insertK m a bv) b av) a = some bv := by
          rw [lookupK_insertK_ne _ _ hab]
          exact lookupK_insertK_self m a bv
        have hlb : lookupK (insertK (insertK m a bv) b av) b = some av :=
          lookupK_insertK_self _ b av
        have h2 : swapApply a b (swapApply a b m)
            = insertK (insertK (insertK (insertK m a bv) b av) a av) b bv := by
          rw [h1]
          simp [swapApply, hab, swapUpdater, hla, hlb]
        rw [h2]
        intro k
        by_cases hkb : k = b
        · subst hkb; rw [lookupK_insertK_self, hb]
        · rw [lookupK_insertK_ne _ _ hkb]
          by_cases hka : k = a
          · subst hka; rw [lookupK_insertK_self, ha]
          · rw [lookupK_insertK_ne _ _ hka, lookupK_insertK_ne _ _ hkb,
              lookupK_insertK_ne _ _ hka]
      | none =>
        have h1 : swapApply a b m = eraseK (insertK m b av) a := by
          simp [swapApply, hab, swapUpdater, ha, hb]
        have e1 : eraseK (insertK m b av) a = insertK (eraseK m a) b av :=
          eraseK_insertK_ne m av hab
        have hla : lookupK (insertK (eraseK m a) b av) a = none := by
          rw [lookupK_insertK_ne _ _ hab]
          exact lookupK_eraseK_self m a
        have hlb : lookupK (insertK (eraseK m a) b av) b = some av :=
          lookupK_insertK_self _ _ _
        have h2 : swapApply a b (swapApply a b m)
            = eraseK (insertK (insertK (eraseK m a) b av) a av) b := by
          rw [h1, e1]
          simp [swapApply, hab, swapUpdater, hla, hlb]
        rw [h2]
        intro k
        by_cases hkb : k = b
        · subst hkb; rw [lookupK_eraseK_self, hb]
        · rw [lookupK_eraseK_ne _ hkb]
          by_cases hka : k = a
          · subst hka; rw [lookupK_insertK_self, ha]
          · rw [lookupK_insertK_ne _ _ hka, lookupK_insertK_ne _ _ hkb,
              lookupK_eraseK_ne _ hka]
    | none =>
      cases hb : lookupK m b with
      | some bv =>
        have h1 : swapApply a b m = eraseK (insertK m a bv) b := by
          simp [swapApply, hab, swapUpdater, ha, hb]
        have e1 : eraseK (insertK m a bv) b = insertK (eraseK m b) a bv :=
          eraseK_insertK_ne m bv hba
        have hla : lookupK (insertK (eraseK m b) a bv) a = some bv :=
          lookupK_insertK_self _ _ _
        have hlb : lookupK (insertK (eraseK m b) a bv) b = none := by
          rw [lookupK_insertK_ne _ _ hba]
          exact lookupK_eraseK_self m b
        have h2 : swapApply a b (swapApply a b m)
            = eraseK (insertK (insertK (eraseK m b) a bv) b bv) a := by
          rw [h1, e1]
          simp [swapApply, hab, swapUpdater, hla, hlb]
        rw [h2]
        intro k
        by_cases hka : k = a
        · subst hka; rw [lookupK_eraseK_self, ha]
        · rw [lookupK_eraseK_ne _ hka]
          by_cases hkb : k = b
          · subst hkb; rw [lookupK_insertK_self, hb]
          · rw [lookupK_insertK_ne _ _ hkb, lookupK_insertK_ne _ _ hka,
              lookupK_eraseK_ne _ hkb]
      | none =>
        have h1 : swapApply a b m = m := by
          simp [swapApply, hab, swapUpdater, ha, hb]
        rw [h1, h1]
        intro k
        rfl

theorem lookupK_foldl_remap_notin {K K' : Type} [DecidableEq K']
    (rk : K → K') (keep : K → Bool) :
    ∀ (m : AssignMap K Nat) (acc : AssignMap K' Nat) (j : K'),
      (∀ p ∈ m, keep p.1 = true → rk p.1 ≠ j) →
      lookupK (m.foldl (remapStep rk keep) acc) j = lookupK acc j
  | [], _, _, _ => rfl
  | p :: m, acc, j, h => by
    rw [List.foldl_cons]
    have htail : ∀ q ∈ m, keep q.1 = true → rk q.1 ≠ j :=
      fun q hq => h q (List.mem_cons_of_mem p hq)
    rw [lookupK_foldl_remap_notin rk keep m _ j htail]
    by_cases hk : keep p.1 = true
    · have hne : rk p.1 ≠ j := h p (List.mem_cons_self p m) hk
      simp only [remapStep, if_pos hk]
      exact lookupK_insertK_ne acc p.2 (Ne.symm hne)
    · simp only [remapStep, if_neg hk]

theorem lookupK_foldl_remap_found {K K' : Type} [DecidableEq K]
    [DecidableEq K'] (rk : K → K') (keep : K → Bool) :
    ∀ (m : AssignMap K Nat) (acc : AssignMap K' Nat) (k : K) (v : Nat),
      lookupK m k = some v → keep k = true →
      ((m.filter fun p => keep p.1).map fun p => rk p.1).Nodup →
      lookupK (m.foldl (remapStep rk keep) acc) (rk k) = some v
  | [], _, k, v, h, _, _ => by simp [lookupK] at h
  | p :: m, acc, k, v, h, hkeep, hnd => by
    rw [List.foldl_cons]
    by_cases hpk : p.1 = k
    · have hv : p.2 = v := by
        simp only [lookupK, if_pos hpk] at h
        exact Option.some.inj h
      have hkp : keep p.1 = true := by rw [hpk]; exact hkeep
      have hfilter : (p :: m).filter (fun p => keep p.1)
          = p :: m.filter (fun p => keep p.1) := by
        simp [List.filter_cons, hkp]
      rw [hfilter] at hnd
      simp only [List.map_cons, List.nodup_cons] at hnd
      have hnotin : ∀ q ∈ m, keep q.1 = true → rk q.1 ≠ rk k := by
        intro q hq hkq heq
        apply hnd.1
        rw [hpk]
        rw [← heq]
        exact List.mem_map_of_mem _ (List.mem_filter.mpr ⟨hq, hkq⟩)
      rw [lookupK_foldl_remap_notin rk keep m _ (rk k) hnotin]
      simp only [remapStep, if_pos hkp]
      rw [hpk, hv]
      exact lookupK_insertK_self acc (rk k) v
    · have htl : lookupK m k = some v := by
        simpa [lookupK, hpk] using h
      have hndtl : ((m.filter fun p => keep p.1).map fun p => rk p.1).Nodup := by
        by_cases hkp : keep p.1 = true
        · have hfilter : (p :: m).filter (fun p => keep p.1)
              = p :: m.filter (fun p => keep p.1) := by
            simp [List.filter_cons, hkp]
          rw [hfilter] at hnd
          simp only [List.map_cons, List.nodup_cons] at hnd
          exact hnd.2
        · have hfilter : (p :: m).filter (fun p => keep p.1)
              = m.filter (fun p => keep p.1) := by
            simp [List.filter_cons, hkp]
          rw [hfilter] at hnd
          exact hnd
      exact lookupK_foldl_remap_found rk keep m _ k v htl hkeep hndtl

/-- C7: `rotateSeats` on a round table with `n = seats > 0` moves every
assignment from seat `k` to seat `(k + s) % n`, `s = ⌊n/4⌋` for `n ≥ 4` and
`1` otherwise. -/
theorem rotateSeats_shift (t : Table) (hn : 0 < t.seats)
    (hk : ∀ p ∈ t.assignments, p.1 < t.seats)
    (hnd : (keysK t.assignments).Nodup) : RotateSeatsSpec t := by
  intro k hklt
  have hinj : ∀ a b : Nat, a < t.seats → b < t.seats →
      (a + rotShift t.seats) % t.seats = (b + rotShift t.seats) % t.seats →
      a = b := by
    intro a b haa hbb heq
    have hmod : a % t.seats = b % t.seats :=
      Nat.ModEq.add_right_cancel' (rotShift t.seats) heq
    rwa [Nat.mod_eq_of_lt haa, Nat.mod_eq_of_lt hbb] at hmod
  have hkeys : ∀ a ∈ keysK t.assignments, a < t.seats := by
    intro a ha
    simp only [keysK, List.mem_map] at ha
    obtain ⟨p, hp, rfl⟩ := ha
    exact hk p hp
  by_cases hne : t.assignments = []
  · have hrt : rotateSeatsTable t = t := by simp [rotateSeatsTable, hne]
    rw [hrt, hne]
    rfl
  · have hrt : rotateSeatsTable t
        = { t with assignments := rotateSeatsMap t.seats t.assignments } := by
      simp [rotateSeatsTable, hn, hne]
    rw [hrt]
    show lookupK (rotateSeatsMap t.seats t.assignments)
        ((k + rotShift t.seats) % t.seats) = lookupK t.assignments k
    rw [rotateSeatsMap]
    cases hv : lookupK t.assignments k with
    | some v =>
      have h1 : ((keysK t.assignments).map
          (fun a => (a + rotShift t.seats) % t.seats)).Nodup :=
        List.Nodup.map_on
          (fun a ha b hb heq => hinj a b (hkeys a ha) (hkeys b hb) heq) hnd
      have hmapnd : ((t.assignments.filter fun p => (fun _ => true) p.1).map
          fun p => (p.1 + rotShift t.seats) % t.seats).Nodup := by
        simp only [List.filter_true]
        simpa [keysK, List.map_map, Function.comp] using h1
      exact lookupK_foldl_remap_found _ _ t.assignments [] k v hv rfl hmapnd
    | none =>
      have hnotin : ∀ p ∈ t.assignments, (fun _ => true) p.1 = true →
          (p.1 + rotShift t.seats) % t.seats
            ≠ (k + rotShift t.seats) % t.seats := by
        intro p hp _ heq
        have hpk : p.1 = k := hinj p.1 k (hk p hp) hklt heq
        have hkm : k ∈ keysK t.assignments := by
          rw [← hpk]
          simp only [keysK, List.mem_map]
          exact ⟨p, hp, rfl⟩
        exact (not_mem_keysK_of_lookupK_none hv) hkm
      rw [lookupK_foldl_remap_notin _ _ t.assignments [] _ hnotin]
      rfl

theorem mem_eraseK_of_mem :
    ∀ {m : AssignMap K α} {k : K} {p : K × α}, p ∈ eraseK m k → p ∈ m
  | [], _, _, h => by simp [eraseK] at h
  | q :: m, k, p, h => by
    simp only [eraseK] at h
    by_cases hq : q.1 = k
    · rw [if_pos hq] at h
      exact List.mem_cons_of_mem _ (mem_eraseK_of_mem h)
    · rw [if_neg hq] at h
      rcases List.mem_cons.mp h with h' | h'
      · exact h' ▸ List.mem_cons_self _ _
      · exact List.mem_cons_of_mem _ (mem_eraseK_of_mem h')

theorem mem_insertK {m : AssignMap K α} {k : K} {v : α} {p : K × α}
    (h : p ∈ insertK m k v) : p = (k, v) ∨ p ∈ m := by
  rcases List.mem_cons.mp h with h' | h'
  · exact Or.inl h'
  · exact Or.inr (mem_eraseK_of_mem h')

theorem mem_foldl_remap {K K' : Type} [DecidableEq K'] (rk : K → K')
    (keep : K → Bool) :
    ∀ (m : AssignMap K Nat) (acc : AssignMap K' Nat) (p : K' × Nat),
      p ∈ m.foldl (remapStep rk keep) acc →
      p ∈ acc ∨ ∃ q, q ∈ m ∧ keep q.1 = true ∧ rk q.1 = p.1 ∧ q.2 = p.2
  | [], _, p, h => Or.inl h
  | q :: m, acc, p, h => by
    rw [List.foldl_cons] at h
    rcases mem_foldl_remap rk keep m _ p h with h' | ⟨q', hq', hk', hr', hv'⟩
    · by_cases hkq : keep q.1 = true
      · simp only [remapStep, if_pos hkq] at h'
        rcases mem_insertK h' with h'' | h''
        · right
          refine ⟨q, List.mem_cons_self q m, hkq, ?_, ?_⟩
          · rw [h'']
          · rw [h'']
        · exact Or.inl h''
      · simp only [remapStep, if_neg hkq] at h'
        exact Or.inl h'
    · exact Or.inr ⟨q', List.mem_cons_of_mem _ hq', hk', hr', hv'⟩

theorem keysK_nodup_foldl_remap {K K' : Type} [DecidableEq K'] (rk : K → K')
    (keep : K → Bool) :
    ∀ (m : AssignMap K Nat) (acc : AssignMap K' Nat),
      (keysK acc).Nodup → (keysK (m.foldl (remapStep rk keep) acc)).Nodup
  | [], _, h => h
  | q :: m, acc, h => by
    rw [List.foldl_cons]
    refine keysK_nodup_foldl_remap rk keep m _ ?_
    by_cases hkq : keep q.1 = true
    · simp only [remapStep, if_pos hkq]
      exact keysK_nodup_insertK _ _ h
    · simpa only [remapStep, if_neg hkq] using h

theorem rotateBlockMap_lookup (R C : Nat) (m : AssignMap (Nat × Nat) Nat)
    (hwf : WFBlockMap m R C) (r c : Nat) (hr : r < R) (hc : c < C) :
    lookupK (rotateBlockMap R C m) (c, R - 1 - r) = lookupK m (r, c) := by
  obtain ⟨hbnd, hnd⟩ := hwf
  rw [rotateBlockMap]
  set rk : Nat × Nat → Nat × Nat :=
    fun rc => (rc.2, ((R : ℤ) - 1 - rc.1).toNat) with hrk
  set keep : Nat × Nat → Bool :=
    fun rc => decide (rc.2 < C ∧ 0 ≤ (R : ℤ) - 1 - rc.1 ∧
      (R : ℤ) - 1 - rc.1 < R) with hkeep
  have hkeepall : ∀ p ∈ m, keep p.1 = true := by
    intro p hp
    obtain ⟨h1, h2⟩ := hbnd p hp
    simp only [hkeep, decide_eq_true_eq]
    refine ⟨h2, by omega, by omega⟩
  have hrkp : ∀ p ∈ m, rk p.1 = (p.1.2, R - 1 - p.1.1) := by
    intro p hp
    obtain ⟨h1, _⟩ := hbnd p hp
    simp only [hrk, Prod.mk.injEq]
    refine ⟨by trivial, by omega⟩
  have hrckey : rk (r, c) = (c, R - 1 - r) := by
    simp only [hrk, Prod.mk.injEq]
    refine ⟨by trivial, by omega⟩
  have hkeeprc : keep (r, c) = true := by
    simp only [hkeep, decide_eq_true_eq]
    refine ⟨hc, by omega, by omega⟩
  cases hv : lookupK m (r, c) with
  | some v =>
    have hkeysbnd : ∀ a ∈ keysK m, a.1 < R ∧ a.2 < C := by
      intro a ha
      simp only [keysK, List.mem_map] at ha
      obtain ⟨p, hp, rfl⟩ := ha
      exact hbnd p hp
    have hinjK : ∀ a ∈ keysK m, ∀ b ∈ keysK m, rk a = rk b → a = b := by
      intro a ha b hb heq
      obtain ⟨ha1, _⟩ := hkeysbnd a ha
      obtain ⟨hb1, _⟩ := hkeysbnd b hb
      simp only [hrk, Prod.mk.injEq] at heq
      obtain ⟨h2, h1⟩ := heq
      have : a.1 = b.1 := by omega
      exact Prod.ext this h2
    have h1 : ((keysK m).map rk).Nodup := List.Nodup.map_on hinjK hnd
    have hfilter : m.filter (fun p => keep p.1) = m :=
      List.filter_eq_self.mpr (fun p hp => hkeepall p hp)
    have hmapnd : ((m.filter fun p => keep p.1).map fun p => rk p.1).Nodup := by
      rw [hfilter]
      simpa [keysK, List.map_map, Function.comp] using h1
    have hfound := lookupK_foldl_remap_found rk keep m [] (r, c) v hv
      hkeeprc hmapnd
    rw [hrckey] at hfound
    exact hfound
  | none =>
    have hnotin : ∀ p ∈ m, keep p.1 = true → rk p.1 ≠ (c, R - 1 - r) := by
      intro p hp _ heq
      obtain ⟨h1, h2⟩ := hbnd p hp
      rw [hrkp p hp] at heq
      simp only [Prod.mk.injEq] at heq
      obtain ⟨hp2, hp1⟩ := heq
      have hpfst : p.1.1 = r := by omega
      have hkm : (r, c) ∈ keysK m := by
        have hpeq : p.1 = (r, c) := Prod.ext hpfst hp2
        rw [← hpeq]
        simp only [keysK, List.mem_map]
        exact ⟨p, hp, rfl⟩
      exact (not_mem_keysK_of_lookupK_none hv) hkm
    rw [lookupK_foldl_remap_notin rk keep m [] _ hnotin]
    rfl

theorem rotateBlockMap_wf (R C : Nat) (m : AssignMap (Nat × Nat) Nat)
    (hwf : WFBlockMap m R C) : WFBlockMap (rotateBlockMap R C m) C R := by
  obtain ⟨hbnd, hnd⟩ := hwf
  constructor
  · intro p hp
    rw [rotateBlockMap] at hp
    rcases mem_foldl_remap _ _ m [] p hp with h | ⟨q, hq, _, hr, _⟩
    · simp at h
    · obtain ⟨h1, h2⟩ := hbnd q hq
      rw [← hr]
      simp only
      constructor
      · exact h2
      · omega
  · rw [rotateBlockMap]
    exact keysK_nodup_foldl_remap _ _ m [] (by simp)

theorem lookupK_none_of_oob {m : AssignMap (Nat × Nat) Nat} {R C r c : Nat}
    (hwf : WFBlockMap m R C) (h : ¬ (r < R ∧ c < C)) :
    lookupK m (r, c) = none := by
  apply lookupK_eq_none_of_not_mem
  intro hmem
  simp only [keysK, List.mem_map] at hmem
  obtain ⟨p, hp, hpe⟩ := hmem
  obtain ⟨h1, h2⟩ := hwf.1 p hp
  rw [hpe] at h1 h2
  exact h ⟨h1, h2⟩

/-- C8: four successive `rotateBlock` applications restore the block's
`rows`, `cols`, and its assignment map (extensionally), given the JS-object
well-formedness: unique keys, all inside the grid (every key the app
writes). -/
theorem rotateBlock_four_restores (b : Block)
    (hwf : WFBlockMap b.assignments b.rows b.cols) :
    RotateBlockFourSpec b := by
  refine ⟨rfl, rfl, ?_⟩
  intro k
  obtain ⟨r, c⟩ := k
  have hwf1 := rotateBlockMap_wf b.rows b.cols b.assignments hwf
  have hwf2 := rotateBlockMap_wf b.cols b.rows _ hwf1
  have hwf3 := rotateBlockMap_wf b.rows b.cols _ hwf2
  have hwf4 := rotateBlockMap_wf b.cols b.rows _ hwf3
  by_cases hb : r < b.rows ∧ c < b.cols
  · obtain ⟨hr, hc⟩ := hb
    have h1 := rotateBlockMap_lookup b.rows b.cols b.assignments hwf r c hr hc
    have h2 := rotateBlockMap_lookup b.cols b.rows _ hwf1 c (b.rows - 1 - r)
      hc (by omega)
    have h3 := rotateBlockMap_lookup b.rows b.cols _ hwf2 (b.rows - 1 - r)
      (b.cols - 1 - c) (by omega) (by omega)
    have h4 := rotateBlockMap_lookup b.cols b.rows _ hwf3 (b.cols - 1 - c) r
      (by omega) hr
    have k2 : b.cols - 1 - (b.cols - 1 - c) = c := by omega
    have k3 : b.rows - 1 - (b.rows - 1 - r) = r := by omega
    rw [k2] at h4
    rw [k3] at h3
    exact h4.trans (h3.trans (h2.trans h1))
  · have hn0 : lookupK b.assignments (r, c) = none := lookupK_none_of_oob hwf hb
    have hn4 := lookupK_none_of_oob hwf4 hb
    exact hn4.trans hn0.symm

omit [DecidableEq K] in
theorem cntV_nil (i : Nat) : cntV i ([] : AssignMap K Nat) = 0 := rfl

theorem cntV_cons (p : K × Nat) (m : AssignMap K Nat) (i : Nat) :
    cntV i (p :: m) = cntV i m + (if i = p.2 then 1 else 0) := by
  simp only [cntV, List.map_cons, List.count_cons]
  by_cases h : p.2 = i
  · simp [h]
  · have h' : ¬ i = p.2 := fun hh => h hh.symm
    simp [h, h']

theorem cntV_insertK (m : AssignMap K Nat) (k : K) (v i : Nat) :
    cntV i (insertK m k v) = cntV i (eraseK m k) + (if i = v then 1 else 0) :=
  cntV_cons (k, v) (eraseK m k) i

theorem cntV_eraseK_le :
    ∀ (m : AssignMap K Nat) (k : K) (i : Nat),
      cntV i (eraseK m k) ≤ cntV i m
  | [], _, _ => le_refl _
  | p :: m, k, i => by
    by_cases hp : p.1 = k
    · simp only [eraseK, if_pos hp]
      calc cntV i (eraseK m k) ≤ cntV i m := cntV_eraseK_le m k i
        _ ≤ cntV i (p :: m) := by rw [cntV_cons]; omega
    · simp only [eraseK, if_neg hp]
      rw [cntV_cons, cntV_cons]
      have := cntV_eraseK_le m k i
      omega

theorem mem_vals_of_lookupK_some :
    ∀ {m : AssignMap K Nat} {k : K} {v : Nat},
      lookupK m k = some v → v ∈ m.map (·.2)
  | [], _, _, h => by simp [lookupK] at h
  | p :: m, k, v, h => by
    by_cases hp : p.1 = k
    · simp only [lookupK, if_pos hp] at h
      simp [← Option.some.inj h]
    · simp only [lookupK, if_neg hp] at h
      simp only [List.map_cons, List.mem_cons]
      exact Or.inr (mem_vals_of_lookupK_some h)

theorem cntV_pos_of_lookupK_some {m : AssignMap K Nat} {k : K} {v : Nat}
    (h : lookupK m k = some v) : 1 ≤ cntV v m := by
  rw [cntV]
  exact List.count_pos_iff.mpr (mem_vals_of_lookupK_some h)

theorem cntV_eraseK_lookup_some :
    ∀ (m : AssignMap K Nat) (k : K) (v i : Nat), (keysK m).Nodup →
      lookupK m k = some v →
      cntV i m = cntV i (eraseK m k) + (if i = v then 1 else 0)
  | [], _, _, _, _, hl => by simp [lookupK] at hl
  | p :: m, k, v, i, hnd, hl => by
    simp only [keysK_cons, List.nodup_cons] at hnd
    by_cases hp : p.1 = k
    · have hv : p.2 = v := by
        simp only [lookupK, if_pos hp] at hl
        exact Option.some.inj hl
      have hknotin : k ∉ keysK m := by rw [← hp]; exact hnd.1
      simp only [eraseK, if_pos hp]
      rw [eraseK_of_not_mem_keysK hknotin, cntV_cons, hv]
    · have hl' : lookupK m k = some v := by
        simpa only [lookupK, if_neg hp] using hl
      simp only [eraseK, if_neg hp]
      rw [cntV_cons, cntV_cons, cntV_eraseK_lookup_some m k v i hnd.2 hl']
      omega

theorem cntV_swapUpdater (m : AssignMap K Nat) (a b : K) (i : Nat)
    (hnd : (keysK m).Nodup) (hab : a ≠ b) :
    cntV i (swapUpdater a b m) = cntV i m := by
  have hba : b ≠ a := fun h => hab h.symm
  cases ha : lookupK m a with
  | none =>
    cases hb : lookupK m b with
    | none => simp [swapUpdater, ha, hb]
    | some bv =>
      have h1 : swapUpdater a b m = insertK (eraseK m b) a bv := by
        rw [swapUpdater, ha, hb]
        exact eraseK_insertK_ne m bv hba
      rw [h1, cntV_insertK]
      have hnotin : a ∉ keysK (eraseK m b) := by
        intro hmem
        exact (not_mem_keysK_of_lookupK_none ha) (keysK_eraseK_subset hmem)
      rw [eraseK_of_not_mem_keysK hnotin]
      rw [cntV_eraseK_lookup_some m b bv i hnd hb]
  | some av =>
    cases hb : lookupK m b with
    | none =>
      have h1 : swapUpdater a b m = insertK (eraseK m a) b av := by
        rw [swapUpdater, ha, hb]
        exact eraseK_insertK_ne m av hab
      rw [h1, cntV_insertK]
      have hnotin : b ∉ keysK (eraseK m a) := by
        intro hmem
        exact (not_mem_keysK_of_lookupK_none hb) (keysK_eraseK_subset hmem)
      rw [eraseK_of_not_mem_keysK hnotin]
      rw [cntV_eraseK_lookup_some m a av i hnd ha]
    | some bv =>
      have h1 : swapUpdater a b m
          = insertK (insertK m a bv) b av := by
        rw [swapUpdater, ha, hb]
      rw [h1, cntV_insertK, eraseK_insertK_ne m bv hba, cntV_insertK]
      have hlb : lookupK (eraseK m a) b = some bv := by
        rw [lookupK_eraseK_ne m hba]
        exact hb
      have h2 := cntV_eraseK_lookup_some m a av i hnd ha
      have h3 := cntV_eraseK_lookup_some (eraseK m a) b bv i
        (keysK_nodup_eraseK a hnd) hlb
      rw [eraseK_comm m b a] at *
      omega

theorem sum_map_le_sum {E : Type} (l : List E) (upd : E → E) (F : E → Nat)
    (h : ∀ e ∈ l, F (upd e) ≤ F e) :
    ((l.map upd).map F).sum ≤ (l.map F).sum := by
  induction l with
  | nil => exact le_refl _
  | cons e l ih =>
    simp only [List.map_cons, List.sum_cons]
    exact Nat.add_le_add (h e (List.mem_cons_self e l))
      (ih fun f hf => h f (List.mem_cons_of_mem e hf))

theorem sum_map_eq_sum {E : Type} (l : List E) (upd : E → E) (F : E → Nat)
    (h : ∀ e ∈ l, F (upd e) = F e) :
    ((l.map upd).map F).sum = (l.map F).sum := by
  induction l with
  | nil => rfl
  | cons e l ih =>
    simp only [List.map_cons, List.sum_cons]
    rw [h e (List.mem_cons_self e l), ih fun f hf => h f (List.mem_cons_of_mem e hf)]

theorem sum_map_single_le {E : Type} (l : List E) (idOf : E → Nat) (eid : Nat)
    (upd : E → E) (F : E → Nat) (c : Nat)
    (hnd : (l.map idOf).Nodup)
    (hne : ∀ e, idOf e ≠ eid → upd e = e)
    (hb : ∀ e, F (upd e) ≤ F e + c) :
    ((l.map upd).map F).sum ≤ (l.map F).sum + c := by
  induction l with
  | nil => simp
  | cons e l ih =>
    simp only [List.map_cons, List.nodup_cons] at hnd
    simp only [List.map_cons, List.sum_cons]
    by_cases hid : idOf e = eid
    · have htail : ∀ f ∈ l, upd f = f := by
        intro f hf
        refine hne f fun heq => hnd.1 ?_
        rw [hid, ← heq]
        exact List.mem_map_of_mem idOf hf
      have hmt : (l.map upd).map F = l.map F := by
        rw [List.map_map]
        exact List.map_congr_left fun f hf => congrArg F (htail f hf)
      rw [hmt]
      have := hb e
      omega
    · rw [hne e hid]
      have := ih hnd.2
      omega

theorem sum_map_single_sub {E : Type} (l : List E) (idOf : E → Nat)
    (eid : Nat) (upd : E → E) (F : E → Nat) (d : Nat)
    (hnd : (l.map idOf).Nodup)
    (hne : ∀ e, idOf e ≠ eid → upd e = e)
    (e₀ : E) (he₀ : e₀ ∈ l) (hid : idOf e₀ = eid)
    (hdec : F (upd e₀) + d = F e₀) :
    ((l.map upd).map F).sum + d = (l.map F).sum := by
  induction l with
  | nil => exact absurd he₀ (List.not_mem_nil e₀)
  | cons e l ih =>
    simp only [List.map_cons, List.nodup_cons] at hnd
    simp only [List.map_cons, List.sum_cons]
    by_cases hide : idOf e = eid
    · have heq : e₀ = e := by
        rcases List.mem_cons.mp he₀ with h | h
        · exact h
        · have hmem : idOf e₀ ∈ List.map idOf l := List.mem_map_of_mem idOf h
          have hmem' : idOf e ∈ List.map idOf l := by
            rw [hide, ← hid]
            exact hmem
          exact absurd hmem' hnd.1
      have htail : ∀ f ∈ l, upd f = f := by
        intro f hf
        refine hne f fun hfe => hnd.1 ?_
        rw [hide, ← hfe]
        exact List.mem_map_of_mem idOf hf
      have hmt : (l.map upd).map F = l.map F := by
        rw [List.map_map]
        exact List.map_congr_left fun f hf => congrArg F (htail f hf)
      rw [hmt, ← heq]
      omega
    · rw [hne e hide]
      have he₀' : e₀ ∈ l := by
        rcases List.mem_cons.mp he₀ with h | h
        · exact absurd (h ▸ hid) hide
        · exact h
      have := ih hnd.2 he₀'
      omega

theorem ids_map_of_id_preserving {E : Type} (l : List E) (idOf : E → Nat)
    (upd : E → E) (h : ∀ e, idOf (upd e) = idOf e) :
    (l.map upd).map idOf = l.map idOf := by
  rw [List.map_map]
  exact List.map_congr_left fun e _ => h e

theorem count_flatten_vals {E : Type} (g : E → List Nat) (i : Nat) :
    ∀ l : List E,
      ((l.map g).flatten).count i = (l.map fun x => (g x).count i).sum
  | [] => rfl
  | x :: l => by
    simp only [List.map_cons, List.flatten_cons, List.count_append,
      List.sum_cons, count_flatten_vals g i l]

theorem count_buildAssignedSet (ts : List Table) (bs : List Block) (i : Nat) :
    (buildAssignedSet ts bs).count i = tcnt i ts + bcnt i bs := by
  rw [buildAssignedSet, List.count_append, count_flatten_vals, count_flatten_vals]
  rfl

theorem le_sum_map_of_mem {E : Type} (F : E → Nat) :
    ∀ (l : List E) (e₀ : E), e₀ ∈ l → F e₀ ≤ (l.map F).sum
  | [], e₀, h => absurd h (List.not_mem_nil e₀)
  | e :: l, e₀, h => by
    simp only [List.map_cons, List.sum_cons]
    rcases List.mem_cons.mp h with h' | h'
    · rw [h']
      omega
    · have := le_sum_map_of_mem F l e₀ h'
      omega

theorem foldl_take_no_match {E : Type} (idOf : E → Nat) (lk : E → Option Nat)
    (eid : Nat) :
    ∀ (l : List E) (acc : Option Nat), (∀ e ∈ l, idOf e ≠ eid) →
      l.foldl (fun acc e => if idOf e = eid then lk e else acc) acc = acc
  | [], _, _ => rfl
  | e :: l, acc, h => by
    rw [List.foldl_cons, if_neg (h e (List.mem_cons_self e l))]
    exact foldl_take_no_match idOf lk eid l acc
      fun f hf => h f (List.mem_cons_of_mem e hf)

theorem foldl_take_some {E : Type} (idOf : E → Nat) (lk : E → Option Nat)
    (eid : Nat) :
    ∀ (l : List E), (l.map idOf).Nodup → ∀ v : Nat,
      l.foldl (fun acc e => if idOf e = eid then lk e else acc) none = some v →
      ∃ e₀, e₀ ∈ l ∧ idOf e₀ = eid ∧ lk e₀ = some v
  | [], _, v, h => by simp at h
  | e :: l, hnd, v, h => by
    simp only [List.map_cons, List.nodup_cons] at hnd
    rw [List.foldl_cons] at h
    by_cases hid : idOf e = eid
    · rw [if_pos hid] at h
      have hno : ∀ f ∈ l, idOf f ≠ eid := by
        intro f hf heq
        refine hnd.1 ?_
        rw [hid, ← heq]
        exact List.mem_map_of_mem idOf hf
      rw [foldl_take_no_match idOf lk eid l _ hno] at h
      exact ⟨e, List.mem_cons_self e l, hid, h⟩
    · rw [if_neg hid] at h
      obtain ⟨e₀, he₀, h1, h2⟩ := foldl_take_some idOf lk eid l hnd.2 v h
      exact ⟨e₀, List.mem_cons_of_mem e he₀, h1, h2⟩

theorem counts_le_of_nodup (ts : List Table) (bs : List Block)
    (hset : (buildAssignedSet ts bs).Nodup) (j : Nat) :
    tcnt j ts + bcnt j bs ≤ 1 := by
  have := List.nodup_iff_count_le_one.mp hset j
  rwa [count_buildAssignedSet] at this

theorem nodup_of_counts (ts : List Table) (bs : List Block)
    (h : ∀ j, tcnt j ts + bcnt j bs ≤ 1) :
    (buildAssignedSet ts bs).Nodup := by
  rw [List.nodup_iff_count_le_one]
  intro j
  rw [count_buildAssignedSet]
  exact h j

theorem keysK_nodup_swapUpdater (m : AssignMap K Nat) (a b : K)
    (hnd : (keysK m).Nodup) : (keysK (swapUpdater a b m)).Nodup := by
  cases ha : lookupK m a <;> cases hb : lookupK m b <;>
    simp only [swapUpdater, ha, hb]
  · exact hnd
  · exact keysK_nodup_eraseK b (keysK_nodup_insertK a _ hnd)
  · exact keysK_nodup_eraseK a (keysK_nodup_insertK b _ hnd)
  · exact keysK_nodup_insertK b _ (keysK_nodup_insertK a _ hnd)

theorem wf_assignAttendee (disabled : List Nat) (st : State) (ref : SeatRef)
    (att : Nat) (h : WFState st) :
    WFState (assignAttendee disabled st ref att) := by
  obtain ⟨hids, hbids, hkt, hkb, hset⟩ := h
  rw [assignAttendee.eq_def]
  by_cases hd : att ∈ disabled
  · rw [if_pos hd]
    exact ⟨hids, hbids, hkt, hkb, hset⟩
  rw [if_neg hd]
  by_cases ha : att ∈ buildAssignedSet st.tables st.chairBlocks
  · rw [if_pos ha]
    exact ⟨hids, hbids, hkt, hkb, hset⟩
  rw [if_neg ha]
  cases ref with
  | t eid key =>
    refine ⟨?_, hbids, ?_, hkb, ?_⟩
    · show ((st.tables.map fun t => if t.id = eid then
          { t with assignments := insertK t.assignments key att } else t).map
            (·.id)).Nodup
      rw [ids_map_of_id_preserving st.tables (·.id) _
        (fun t => by by_cases hi : t.id = eid <;> simp [hi])]
      exact hids
    · intro t' ht'
      rcases List.mem_map.mp ht' with ⟨t, ht, rfl⟩
      by_cases hi : t.id = eid
      · simp only [if_pos hi]
        exact keysK_nodup_insertK _ _ (hkt t ht)
      · simp only [if_neg hi]
        exact hkt t ht
    · apply nodup_of_counts
      intro j
      show tcnt j (st.tables.map fun t => if t.id = eid then
          { t with assignments := insertK t.assignments key att } else t)
        + bcnt j st.chairBlocks ≤ 1
      have hold := counts_le_of_nodup st.tables st.chairBlocks hset j
      by_cases hj : j = att
      · subst hj
        have hcnt0 : (buildAssignedSet st.tables st.chairBlocks).count j = 0 :=
          List.count_eq_zero.mpr ha
        rw [count_buildAssignedSet] at hcnt0
        have hb1 : tcnt j (st.tables.map fun t => if t.id = eid then
            { t with assignments := insertK t.assignments key j } else t)
              ≤ tcnt j st.tables + 1 := by
          apply sum_map_single_le st.tables (·.id) eid _ _ 1 hids
          · intro t hti
            simp [hti]
          · intro t
            by_cases hi : t.id = eid
            · simp only [if_pos hi]
              show cntV j (insertK t.assignments key j)
                  ≤ cntV j t.assignments + 1
              have h1 : cntV j (insertK t.assignments key j)
                  = cntV j (eraseK t.assignments key) + 1 := by
                rw [cntV_insertK]
                simp
              have h2 := cntV_eraseK_le t.assignments key j
              omega
            · simp only [if_neg hi]
              omega
        omega
      · have hb1 : tcnt j (st.tables.map fun t => if t.id = eid then
            { t with assignments := insertK t.assignments key att } else t)
              ≤ tcnt j st.tables := by
          apply sum_map_le_sum
          intro t ht
          by_cases hi : t.id = eid
          · simp only [if_pos hi]
            show cntV j (insertK t.assignments key att) ≤ cntV j t.assignments
            have h1 : cntV j (insertK t.assignments key att)
                = cntV j (eraseK t.assignments key) := by
              rw [cntV_insertK]
              simp [hj]
            have h2 := cntV_eraseK_le t.assignments key j
            omega
          · simp only [if_neg hi]
            omega
        omega
  | b eid key =>
    refine ⟨hids, ?_, hkt, ?_, ?_⟩
    · show ((st.chairBlocks.map fun b => if b.id = eid then
          { b with assignments := insertK b.assignments key att } else b).map
            (·.id)).Nodup
      rw [ids_map_of_id_preserving st.chairBlocks (·.id) _
        (fun b => by by_cases hi : b.id = eid <;> simp [hi])]
      exact hbids
    · intro b' hb'
      rcases List.mem_map.mp hb' with ⟨b, hb, rfl⟩
      by_cases hi : b.id = eid
      · simp only [if_pos hi]
        exact keysK_nodup_insertK _ _ (hkb b hb)
      · simp only [if_neg hi]
        exact hkb b hb
    · apply nodup_of_counts
      intro j
      show tcnt j st.tables + bcnt j (st.chairBlocks.map fun b =>
          if b.id = eid then
            { b with assignments := insertK b.assignments key att } else b) ≤ 1
      have hold := counts_le_of_nodup st.tables st.chairBlocks hset j
      by_cases hj : j = att
      · subst hj
        have hcnt0 : (buildAssignedSet st.tables st.chairBlocks).count j = 0 :=
          List.count_eq_zero.mpr ha
        rw [count_buildAssignedSet] at hcnt0
        have hb1 : bcnt j (st.chairBlocks.map fun b => if b.id = eid then
            { b with assignments := insertK b.assignments key j } else b)
              ≤ bcnt j st.chairBlocks + 1 := by
          apply sum_map_single_le st.chairBlocks (·.id) eid _ _ 1 hbids
          · intro b hbi
            simp [hbi]
          · intro b
            by_cases hi : b.id = eid
            · simp only [if_pos hi]
              show cntV j (insertK b.assignments key j)
                  ≤ cntV j b.assignments + 1
              have h1 : cntV j (insertK b.assignments key j)
                  = cntV j (eraseK b.assignments key) + 1 := by
                rw [cntV_insertK]
                simp
              have h2 := cntV_eraseK_le b.assignments key j
              omega
            · simp only [if_neg hi]
              omega
        omega
      · have hb1 : bcnt j (st.chairBlocks.map fun b => if b.id = eid then
            { b with assignments := insertK b.assignments key att } else b)
              ≤ bcnt j st.chairBlocks := by
          apply sum_map_le_sum
          intro b hb
          by_cases hi : b.id = eid
          · simp only [if_pos hi]
            show cntV j (insertK b.assignments key att) ≤ cntV j b.assignments
            have h1 : cntV j (insertK b.assignments key att)
                = cntV j (eraseK b.assignments key) := by
              rw [cntV_insertK]
              simp [hj]
            have h2 := cntV_eraseK_le b.assignments key j
            omega
          · simp only [if_neg hi]
            omega
        omega

theorem wf_swapSeatsT (st : State) (eid : Nat) (a b : Nat) (h : WFState st) :
    WFState (swapSeatsT st eid a b) := by
  obtain ⟨hids, hbids, hkt, hkb, hset⟩ := h
  rw [swapSeatsT]
  by_cases hab : a = b
  · rw [if_pos hab]
    exact ⟨hids, hbids, hkt, hkb, hset⟩
  rw [if_neg hab]
  refine ⟨?_, hbids, ?_, hkb, ?_⟩
  · show ((st.tables.map fun t => if t.id = eid then
        { t with assignments := swapUpdater a b t.assignments } else t).map
          (·.id)).Nodup
    rw [ids_map_of_id_preserving st.tables (·.id) _
      (fun t => by by_cases hi : t.id = eid <;> simp [hi])]
    exact hids
  · intro t' ht'
    rcases List.mem_map.mp ht' with ⟨t, ht, rfl⟩
    by_cases hi : t.id = eid
    · simp only [if_pos hi]
      exact keysK_nodup_swapUpdater _ a b (hkt t ht)
    · simp only [if_neg hi]
      exact hkt t ht
  · apply nodup_of_counts
    intro j
    show tcnt j (st.tables.map fun t => if t.id = eid then
        { t with assignments := swapUpdater a b t.assignments } else t)
      + bcnt j st.chairBlocks ≤ 1
    have hold := counts_le_of_nodup st.tables st.chairBlocks hset j
    have heq : tcnt j (st.tables.map fun t => if t.id = eid then
        { t with assignments := swapUpdater a b t.assignments } else t)
          = tcnt j st.tables := by
      apply sum_map_eq_sum
      intro t ht
      by_cases hi : t.id = eid
      · simp only [if_pos hi]
        exact cntV_swapUpdater t.assignments a b j (hkt t ht) hab
      · simp only [if_neg hi]
    omega

theorem wf_swapSeatsB (st : State) (eid : Nat) (a b : Nat × Nat)
    (h : WFState st) : WFState (swapSeatsB st eid a b) := by
  obtain ⟨hids, hbids, hkt, hkb, hset⟩ := h
  rw [swapSeatsB]
  by_cases hab : a = b
  · rw [if_pos hab]
    exact ⟨hids, hbids, hkt, hkb, hset⟩
  rw [if_neg hab]
  refine ⟨hids, ?_, hkt, ?_, ?_⟩
  · show ((st.chairBlocks.map fun bl => if bl.id = eid then
        { bl with assignments := swapUpdater a b bl.assignments } else bl).map
          (·.id)).Nodup
    rw [ids_map_of_id_preserving st.chairBlocks (·.id) _
      (fun bl => by by_cases hi : bl.id = eid <;> simp [hi])]
    exact hbids
  · intro b' hb'
    rcases List.mem_map.mp hb' with ⟨bl, hbl, rfl⟩
    by_cases hi : bl.id = eid
    · simp only [if_pos hi]
      exact keysK_nodup_swapUpdater _ a b (hkb bl hbl)
    · simp only [if_neg hi]
      exact hkb bl hbl
  · apply nodup_of_counts
    intro j
    show tcnt j st.tables + bcnt j (st.chairBlocks.map fun bl =>
        if bl.id = eid then
          { bl with assignments := swapUpdater a b bl.assignments } else bl) ≤ 1
    have hold := counts_le_of_nodup st.tables st.chairBlocks hset j
    have heq : bcnt j (st.chairBlocks.map fun bl => if bl.id = eid then
        { bl with assignments := swapUpdater a b bl.assignments } else bl)
          = bcnt j st.chairBlocks := by
      apply sum_map_eq_sum
      intro bl hbl
      by_cases hi : bl.id = eid
      · simp only [if_pos hi]
        exact cntV_swapUpdater bl.assignments a b j (hkb bl hbl) hab
      · simp only [if_neg hi]
    omega

theorem ids_takeT (ts : List Table) (eid : Nat) (k : Nat) :
    ((takeT ts eid k).1.map (·.id)) = ts.map (·.id) :=
  ids_map_of_id_preserving ts (·.id) _
    (fun t => by by_cases hi : t.id = eid <;> simp [hi])

theorem ids_putT (ts : List Table) (eid : Nat) (k : Nat) (v : Nat) :
    ((putT ts eid k v).map (·.id)) = ts.map (·.id) :=
  ids_map_of_id_preserving ts (·.id) _
    (fun t => by by_cases hi : t.id = eid <;> simp [hi])

theorem ids_takeB (bs : List Block) (eid : Nat) (k : Nat × Nat) :
    ((takeB bs eid k).1.map (·.id)) = bs.map (·.id) :=
  ids_map_of_id_preserving bs (·.id) _
    (fun b => by by_cases hi : b.id = eid <;> simp [hi])

theorem ids_putB (bs : List Block) (eid : Nat) (k : Nat × Nat) (v : Nat) :
    ((putB bs eid k v).map (·.id)) = bs.map (·.id) :=
  ids_map_of_id_preserving bs (·.id) _
    (fun b => by by_cases hi : b.id = eid <;> simp [hi])

theorem keys_nodup_takeT (ts : List Table) (eid : Nat) (k : Nat)
    (h : ∀ t ∈ ts, (keysK t.assignments).Nodup) :
    ∀ t' ∈ (takeT ts eid k).1, (keysK t'.assignments).Nodup := by
  intro t' ht'
  rcases List.mem_map.mp ht' with ⟨t, ht, rfl⟩
  by_cases hi : t.id = eid
  · simp only [if_pos hi]
    exact keysK_nodup_eraseK k (h t ht)
  · simp only [if_neg hi]
    exact h t ht

theorem keys_nodup_putT (ts : List Table) (eid : Nat) (k : Nat) (v : Nat)
    (h : ∀ t ∈ ts, (keysK t.assignments).Nodup) :
    ∀ t' ∈ putT ts eid k v, (keysK t'.assignments).Nodup := by
  intro t' ht'
  rcases List.mem_map.mp ht' with ⟨t, ht, rfl⟩
  by_cases hi : t.id = eid
  · simp only [if_pos hi]
    exact keysK_nodup_insertK _ _ (h t ht)
  · simp only [if_neg hi]
    exact h t ht

theorem keys_nodup_takeB (bs : List Block) (eid : Nat) (k : Nat × Nat)
    (h : ∀ b ∈ bs, (keysK b.assignments).Nodup) :
    ∀ b' ∈ (takeB bs eid k).1, (keysK b'.assignments).Nodup := by
  intro b' hb'
  rcases List.mem_map.mp hb' with ⟨b, hb, rfl⟩
  by_cases hi : b.id = eid
  · simp only [if_pos hi]
    exact keysK_nodup_eraseK k (h b hb)
  · simp only [if_neg hi]
    exact h b hb

theorem keys_nodup_putB (bs : List Block) (eid : Nat) (k : Nat × Nat) (v : Nat)
    (h : ∀ b ∈ bs, (keysK b.assignments).Nodup) :
    ∀ b' ∈ putB bs eid k v, (keysK b'.assignments).Nodup := by
  intro b' hb'
  rcases List.mem_map.mp hb' with ⟨b, hb, rfl⟩
  by_cases hi : b.id = eid
  · simp only [if_pos hi]
    exact keysK_nodup_insertK _ _ (h b hb)
  · simp only [if_neg hi]
    exact h b hb

theorem tcnt_takeT_le (ts : List Table) (eid : Nat) (k : Nat) (j : Nat) :
    tcnt j (takeT ts eid k).1 ≤ tcnt j ts := by
  apply sum_map_le_sum
  intro t ht
  by_cases hi : t.id = eid
  · simp only [if_pos hi]
    exact cntV_eraseK_le t.assignments k j
  · simp only [if_neg hi]
    omega

theorem bcnt_takeB_le (bs : List Block) (eid : Nat) (k : Nat × Nat) (j : Nat) :
    bcnt j (takeB bs eid k).1 ≤ bcnt j bs := by
  apply sum_map_le_sum
  intro b hb
  by_cases hi : b.id = eid
  · simp only [if_pos hi]
    exact cntV_eraseK_le b.assignments k j
  · simp only [if_neg hi]
    omega

theorem tcnt_putT_le_of_ne (ts : List Table) (eid : Nat) (k : Nat) (v j : Nat)
    (hjv : j ≠ v) : tcnt j (putT ts eid k v) ≤ tcnt j ts := by
  apply sum_map_le_sum
  intro t ht
  by_cases hi : t.id = eid
  · simp only [if_pos hi]
    show cntV j (insertK t.assignments k v) ≤ cntV j t.assignments
    have h1 : cntV j (insertK t.assignments k v)
        = cntV j (eraseK t.assignments k) := by
      rw [cntV_insertK]
      simp [hjv]
    have h2 := cntV_eraseK_le t.assignments k j
    omega
  · simp only [if_neg hi]
    omega

theorem bcnt_putB_le_of_ne (bs : List Block) (eid : Nat) (k : Nat × Nat)
    (v j : Nat) (hjv : j ≠ v) : bcnt j (putB bs eid k v) ≤ bcnt j bs := by
  apply sum_map_le_sum
  intro b hb
  by_cases hi : b.id = eid
  · simp only [if_pos hi]
    show cntV j (insertK b.assignments k v) ≤ cntV j b.assignments
    have h1 : cntV j (insertK b.assignments k v)
        = cntV j (eraseK b.assignments k) := by
      rw [cntV_insertK]
      simp [hjv]
    have h2 := cntV_eraseK_le b.assignments k j
    omega
  · simp only [if_neg hi]
    omega

theorem tcnt_putT_le_add (ts : List Table) (eid : Nat) (k : Nat) (v j : Nat)
    (hnd : (ts.map (·.id)).Nodup) :
    tcnt j (putT ts eid k v) ≤ tcnt j ts + 1 := by
  apply sum_map_single_le ts (·.id) eid _ _ 1 hnd
  · intro t hti
    simp [hti]
  · intro t
    by_cases hi : t.id = eid
    · simp only [if_pos hi]
      show cntV j (insertK t.assignments k v) ≤ cntV j t.assignments + 1
      rw [cntV_insertK]
      have h2 := cntV_eraseK_le t.assignments k j
      by_cases hjv : j = v
      · simp only [if_pos hjv]
        omega
      · simp only [if_neg hjv]
        omega
    · simp only [if_neg hi]
      omega

theorem bcnt_putB_le_add (bs : List Block) (eid : Nat) (k : Nat × Nat)
    (v j : Nat) (hnd : (bs.map (·.id)).Nodup) :
    bcnt j (putB bs eid k v) ≤ bcnt j bs + 1 := by
  apply sum_map_single_le bs (·.id) eid _ _ 1 hnd
  · intro b hbi
    simp [hbi]
  · intro b
    by_cases hi : b.id = eid
    · simp only [if_pos hi]
      show cntV j (insertK b.assignments k v) ≤ cntV j b.assignments + 1
      rw [cntV_insertK]
      have h2 := cntV_eraseK_le b.assignments k j
      by_cases hjv : j = v
      · simp only [if_pos hjv]
        omega
      · simp only [if_neg hjv]
        omega
    · simp only [if_neg hi]
      omega

theorem tcnt_takeT_sub (ts : List Table) (eid : Nat) (k : Nat) (v : Nat)
    (hnd : (ts.map (·.id)).Nodup)
    (hkeys : ∀ t ∈ ts, (keysK t.assignments).Nodup)
    (t₀ : Table) (ht₀ : t₀ ∈ ts) (hid : t₀.id = eid)
    (hlk : lookupK t₀.assignments k = some v) :
    tcnt v (takeT ts eid k).1 + 1 = tcnt v ts := by
  have hdec : cntV v ((if t₀.id = eid then
      { t₀ with assignments := eraseK t₀.assignments k } else t₀).assignments)
        + 1 = cntV v t₀.assignments := by
    rw [if_pos hid]
    show cntV v (eraseK t₀.assignments k) + 1 = cntV v t₀.assignments
    have h1 : cntV v t₀.assignments
        = cntV v (eraseK t₀.assignments k) + 1 := by
      have h2 := cntV_eraseK_lookup_some t₀.assignments k v v
        (hkeys t₀ ht₀) hlk
      simpa using h2
    omega
  exact sum_map_single_sub ts (·.id) eid _ _ 1 hnd
    (fun t hti => by simp [hti]) t₀ ht₀ hid hdec

theorem bcnt_takeB_sub (bs : List Block) (eid : Nat) (k : Nat × Nat) (v : Nat)
    (hnd : (bs.map (·.id)).Nodup)
    (hkeys : ∀ b ∈ bs, (keysK b.assignments).Nodup)
    (b₀ : Block) (hb₀ : b₀ ∈ bs) (hid : b₀.id = eid)
    (hlk : lookupK b₀.assignments k = some v) :
    bcnt v (takeB bs eid k).1 + 1 = bcnt v bs := by
  have hdec : cntV v ((if b₀.id = eid then
      { b₀ with assignments := eraseK b₀.assignments k } else b₀).assignments)
        + 1 = cntV v b₀.assignments := by
    rw [if_pos hid]
    show cntV v (eraseK b₀.assignments k) + 1 = cntV v b₀.assignments
    have h1 : cntV v b₀.assignments
        = cntV v (eraseK b₀.assignments k) + 1 := by
      have h2 := cntV_eraseK_lookup_some b₀.assignments k v v
        (hkeys b₀ hb₀) hlk
      simpa using h2
    omega
  exact sum_map_single_sub bs (·.id) eid _ _ 1 hnd
    (fun b hbi => by simp [hbi]) b₀ hb₀ hid hdec

theorem tcnt_ge_one (ts : List Table) (k : Nat) (v : Nat)
    (t₀ : Table) (ht₀ : t₀ ∈ ts)
    (hlk : lookupK t₀.assignments k = some v) : 1 ≤ tcnt v ts := by
  show 1 ≤ (ts.map fun t => cntV v t.assignments).sum
  have h1 := cntV_pos_of_lookupK_some hlk
  have h2 : cntV v t₀.assignments ≤ (ts.map fun t => cntV v t.assignments).sum :=
    le_sum_map_of_mem (fun t => cntV v t.assignments) ts t₀ ht₀
  omega

theorem bcnt_ge_one (bs : List Block) (k : Nat × Nat) (v : Nat)
    (b₀ : Block) (hb₀ : b₀ ∈ bs)
    (hlk : lookupK b₀.assignments k = some v) : 1 ≤ bcnt v bs := by
  show 1 ≤ (bs.map fun b => cntV v b.assignments).sum
  have h1 := cntV_pos_of_lookupK_some hlk
  have h2 : cntV v b₀.assignments ≤ (bs.map fun b => cntV v b.assignments).sum :=
    le_sum_map_of_mem (fun b => cntV v b.assignments) bs b₀ hb₀
  omega

theorem wf_moveSeatToSeat (st : State) (src dst : SeatRef) (h : WFState st) :
    WFState (moveSeatToSeat st src dst) := by
  obtain ⟨hids, hbids, hkt, hkb, hset⟩ := h
  cases src with
  | t si sk =>
    cases dst with
    | t di dk =>
      simp only [moveSeatToSeat]
      by_cases hsd : si = di
      · rw [if_pos hsd]
        exact wf_swapSeatsT st si sk dk ⟨hids, hbids, hkt, hkb, hset⟩
      rw [if_neg hsd]
      cases hr : (takeT st.tables si sk).2 with
      | none =>
        refine ⟨?_, hbids, ?_, hkb, ?_⟩
        · show ((takeT st.tables si sk).1.map (·.id)).Nodup
          rw [ids_takeT]
          exact hids
        · exact keys_nodup_takeT st.tables si sk hkt
        · apply nodup_of_counts
          intro j
          show tcnt j (takeT st.tables si sk).1 + bcnt j st.chairBlocks ≤ 1
          have h1 := tcnt_takeT_le st.tables si sk j
          have hold := counts_le_of_nodup st.tables st.chairBlocks hset j
          omega
      | some v =>
        have hr' : st.tables.foldl (fun acc t =>
            if t.id = si then lookupK t.assignments sk else acc) none
              = some v := hr
        obtain ⟨t₀, ht₀, hid₀, hlk₀⟩ := foldl_take_some (·.id)
          (fun t => lookupK t.assignments sk) si st.tables hids v hr'
        have hids' : ((takeT st.tables si sk).1.map (·.id)).Nodup := by
          rw [ids_takeT]
          exact hids
        refine ⟨?_, hbids, ?_, hkb, ?_⟩
        · show ((putT (takeT st.tables si sk).1 di dk v).map (·.id)).Nodup
          rw [ids_putT, ids_takeT]
          exact hids
        · exact keys_nodup_putT _ di dk v (keys_nodup_takeT st.tables si sk hkt)
        · apply nodup_of_counts
          intro j
          show tcnt j (putT (takeT st.tables si sk).1 di dk v)
            + bcnt j st.chairBlocks ≤ 1
          have hold := counts_le_of_nodup st.tables st.chairBlocks hset j
          by_cases hjv : j = v
          · subst hjv
            have hge := tcnt_ge_one st.tables sk j t₀ ht₀ hlk₀
            have hsub := tcnt_takeT_sub st.tables si sk j hids hkt t₀ ht₀
              hid₀ hlk₀
            have hput := tcnt_putT_le_add (takeT st.tables si sk).1 di dk j j
              hids'
            omega
          · have h1 := tcnt_takeT_le st.tables si sk j
            have h2 := tcnt_putT_le_of_ne (takeT st.tables si sk).1 di dk v j
              hjv
            omega
    | b di dk =>
      simp only [moveSeatToSeat]
      cases hr : (takeT st.tables si sk).2 with
      | none =>
        refine ⟨?_, hbids, ?_, hkb, ?_⟩
        · show ((takeT st.tables si sk).1.map (·.id)).Nodup
          rw [ids_takeT]
          exact hids
        · exact keys_nodup_takeT st.tables si sk hkt
        · apply nodup_of_counts
          intro j
          show tcnt j (takeT st.tables si sk).1 + bcnt j st.chairBlocks ≤ 1
          have h1 := tcnt_takeT_le st.tables si sk j
          have hold := counts_le_of_nodup st.tables st.chairBlocks hset j
          omega
      | some v =>
        have hr' : st.tables.foldl (fun acc t =>
            if t.id = si then lookupK t.assignments sk else acc) none
              = some v := hr
        obtain ⟨t₀, ht₀, hid₀, hlk₀⟩ := foldl_take_some (·.id)
          (fun t => lookupK t.assignments sk) si st.tables hids v hr'
        refine ⟨?_, ?_, ?_, ?_, ?_⟩
        · show ((takeT st.tables si sk).1.map (·.id)).Nodup
          rw [ids_takeT]
          exact hids
        · show ((putB st.chairBlocks di dk v).map (·.id)).Nodup
          rw [ids_putB]
          exact hbids
        · exact keys_nodup_takeT st.tables si sk hkt
        · exact keys_nodup_putB st.chairBlocks di dk v hkb
        · apply nodup_of_counts
          intro j
          show tcnt j (takeT st.tables si sk).1
            + bcnt j (putB st.chairBlocks di dk v) ≤ 1
          have hold := counts_le_of_nodup st.tables st.chairBlocks hset j
          by_cases hjv : j = v
          · subst hjv
            have hge := tcnt_ge_one st.tables sk j t₀ ht₀ hlk₀
            have hsub := tcnt_takeT_sub st.tables si sk j hids hkt t₀ ht₀
              hid₀ hlk₀
            have hput := bcnt_putB_le_add st.chairBlocks di dk j j hbids
            omega
          · have h1 := tcnt_takeT_le st.tables si sk j
            have h2 := bcnt_putB_le_of_ne st.chairBlocks di dk v j hjv
            omega
  | b si sk =>
    cases dst with
    | t di dk =>
      simp only [moveSeatToSeat]
      cases hr : (takeB st.chairBlocks si sk).2 with
      | none =>
        refine ⟨hids, ?_, hkt, ?_, ?_⟩
        · show ((takeB st.chairBlocks si sk).1.map (·.id)).Nodup
          rw [ids_takeB]
          exact hbids
        · exact keys_nodup_takeB st.chairBlocks si sk hkb
        · apply nodup_of_counts
          intro j
          show tcnt j st.tables + bcnt j (takeB st.chairBlocks si sk).1 ≤ 1
          have h1 := bcnt_takeB_le st.chairBlocks si sk j
          have hold := counts_le_of_nodup st.tables st.chairBlocks hset j
          omega
      | some v =>
        have hr' : st.chairBlocks.foldl (fun acc b =>
            if b.id = si then lookupK b.assignments sk else acc) none
              = some v := hr
        obtain ⟨b₀, hb₀, hid₀, hlk₀⟩ := foldl_take_some (·.id)
          (fun b => lookupK b.assignments sk) si st.chairBlocks hbids v hr'
        refine ⟨?_, ?_, ?_, ?_, ?_⟩
        · show ((putT st.tables di dk v).map (·.id)).Nodup
          rw [ids_putT]
          exact hids
        · show ((takeB st.chairBlocks si sk).1.map (·.id)).Nodup
          rw [ids_takeB]
          exact hbids
        · exact keys_nodup_putT st.tables di dk v hkt
        · exact keys_nodup_takeB st.chairBlocks si sk hkb
        · apply nodup_of_counts
          intro j
          show tcnt j (putT st.tables di dk v)
            + bcnt j (takeB st.chairBlocks si sk).1 ≤ 1
          have hold := counts_le_of_nodup st.tables st.chairBlocks hset j
          by_cases hjv : j = v
          · subst hjv
            have hge := bcnt_ge_one st.chairBlocks sk j b₀ hb₀ hlk₀
            have hsub := bcnt_takeB_sub st.chairBlocks si sk j hbids hkb b₀
              hb₀ hid₀ hlk₀
            have hput := tcnt_putT_le_add st.tables di dk j j hids
            omega
          · have h1 := bcnt_takeB_le st.chairBlocks si sk j
            have h2 := tcnt_putT_le_of_ne st.tables di dk v j hjv
            omega
    | b di dk =>
      simp only [moveSeatToSeat]
      by_cases hsd : si = di
      · rw [if_pos hsd]
        exact wf_swapSeatsB st si sk dk ⟨hids, hbids, hkt, hkb, hset⟩
      rw [if_neg hsd]
      cases hr : (takeB st.chairBlocks si sk).2 with
      | none =>
        refine ⟨hids, ?_, hkt, ?_, ?_⟩
        · show ((takeB st.chairBlocks si sk).1.map (·.id)).Nodup
          rw [ids_takeB]
          exact hbids
        · exact keys_nodup_takeB st.chairBlocks si sk hkb
        · apply nodup_of_counts
          intro j
          show tcnt j st.tables + bcnt j (takeB st.chairBlocks si sk).1 ≤ 1
          have h1 := bcnt_takeB_le st.chairBlocks si sk j
          have hold := counts_le_of_nodup st.tables st.chairBlocks hset j
          omega
      | some v =>
        have hr' : st.chairBlocks.foldl (fun acc b =>
            if b.id = si then lookupK b.assignments sk else acc) none
              = some v := hr
        obtain ⟨b₀, hb₀, hid₀, hlk₀⟩ := foldl_take_some (·.id)
          (fun b => lookupK b.assignments sk) si st.chairBlocks hbids v hr'
        have hbids' : ((takeB st.chairBlocks si sk).1.map (·.id)).Nodup := by
          rw [ids_takeB]
          exact hbids
        refine ⟨hids, ?_, hkt, ?_, ?_⟩
        · show ((putB (takeB st.chairBlocks si sk).1 di dk v).map
            (·.id)).Nodup
          rw [ids_putB, ids_takeB]
          exact hbids
        · exact keys_nodup_putB _ di dk v
            (keys_nodup_takeB st.chairBlocks si sk hkb)
        · apply nodup_of_counts
          intro j
          show tcnt j st.tables
            + bcnt j (putB (takeB st.chairBlocks si sk).1 di dk v) ≤ 1
          have hold := counts_le_of_nodup st.tables st.chairBlocks hset j
          by_cases hjv : j = v
          · subst hjv
            have hge := bcnt_ge_one st.chairBlocks sk j b₀ hb₀ hlk₀
            have hsub := bcnt_takeB_sub st.chairBlocks si sk j hbids hkb b₀
              hb₀ hid₀ hlk₀
            have hput := bcnt_putB_le_add (takeB st.chairBlocks si sk).1 di dk
              j j hbids'
            omega
          · have h1 := bcnt_takeB_le st.chairBlocks si sk j
            have h2 := bcnt_putB_le_of_ne (takeB st.chairBlocks si sk).1 di dk
              v j hjv
            omega

theorem wf_applyOp (disabled : List Nat) (st : State) (op : AssignOp)
    (h : WFState st) : WFState (applyOp disabled st op) := by
  cases op with
  | assign ref attIdx => exact wf_assignAttendee disabled st ref attIdx h
  | swapT eid a b => exact wf_swapSeatsT st eid a b h
  | swapB eid a b => exact wf_swapSeatsB st eid a b h
  | move src dst => exact wf_moveSeatToSeat st src dst h

theorem wf_applyOps (disabled : List Nat) :
    ∀ (ops : List AssignOp) (st : State), WFState st →
      WFState (applyOps disabled st ops)
  | [], _, h => h
  | op :: ops, st, h =>
    wf_applyOps disabled ops (applyOp disabled st op)
      (wf_applyOp disabled st op h)

/-- C1: global seat exclusivity.  Starting from a well-formed state (unique
per-kind entity ids, JS-object key uniqueness, and no attendee seated twice),
after any sequence of `assignAttendee`, `swapSeats` and `moveSeatToSeat`
operations, every attendee index occurs as a value in at most one
`(entity, seatKey)` assignment pair across all tables and chair blocks. -/
theorem global_seat_exclusivity (disabled : List Nat) (st : State)
    (h : WFState st) (ops : List AssignOp) (i : Nat) :
    (buildAssignedSet (applyOps disabled st ops).tables
      (applyOps disabled st ops).chairBlocks).count i ≤ 1 := by
  have hwf := wf_applyOps disabled ops st h
  have := List.nodup_iff_count_le_one.mp hwf.2.2.2.2 i
  exact this

/-- C1 witness: exclusivity after a concrete operation sequence on a
concrete well-formed state. -/
theorem global_seat_exclusivity_witness :
    (buildAssignedSet (applyOps [] exclStateW exclOpsW).tables
      (applyOps [] exclStateW exclOpsW).chairBlocks).count 3 ≤ 1 :=
  global_seat_exclusivity [] exclStateW (by decide) exclOpsW 3

/-- C7 witness: the rotation shift property for a concrete 8-seat round
table with attendee 3 at seat 0 (who therefore moves to seat
`(0 + 8/4) % 8 = 2`). -/
theorem rotateSeats_shift_witness : RotateSeatsSpec rotTableW :=
  rotateSeats_shift rotTableW (by decide) (by decide) (by decide)

/-- C8 witness: four rotations restore a concrete 2×3 block with two
assignments. -/
theorem rotateBlock_four_restores_witness : RotateBlockFourSpec rotBlockW :=
  rotateBlock_four_restores rotBlockW (by decide)

theorem mem_id_unique {E : Type} (idOf : E → Nat) :
    ∀ (l : List E), (l.map idOf).Nodup → ∀ e₁ e₂, e₁ ∈ l → e₂ ∈ l →
      idOf e₁ = idOf e₂ → e₁ = e₂
  | [], _, e₁, _, h1, _, _ => absurd h1 (List.not_mem_nil e₁)
  | e :: l, hnd, e₁, e₂, h1, h2, he => by
    simp only [List.map_cons, List.nodup_cons] at hnd
    rcases List.mem_cons.mp h1 with h1' | h1' <;>
      rcases List.mem_cons.mp h2 with h2' | h2'
    · rw [h1', h2']
    · exfalso
      apply hnd.1
      rw [h1'] at he
      rw [he]
      exact List.mem_map_of_mem idOf h2'
    · exfalso
      apply hnd.1
      rw [h2'] at he
      rw [← he]
      exact List.mem_map_of_mem idOf h1'
    · exact mem_id_unique idOf l hnd.2 e₁ e₂ h1' h2' he

theorem lookup_putT_preserved (ts : List Table) (eid : Nat) (k : Nat)
    (v : Nat)
    (hfree : ∀ t ∈ ts, t.id = eid → lookupK t.assignments k = none) :
    ∀ (n : Nat) (t t' : Table), ts[n]? = some t →
      (putT ts eid k v)[n]? = some t' →
      ∀ k' w, lookupK t.assignments k' = some w →
        lookupK t'.assignments k' = some w := by
  intro n t t' ht ht' k' w hw
  rw [putT, List.getElem?_map _ ts n, ht] at ht'
  have ht'' : t' = if t.id = eid then
      { t with assignments := insertK t.assignments k v } else t :=
    (Option.some.inj ht').symm
  by_cases hi : t.id = eid
  · rw [ht'', if_pos hi]
    have hmem : t ∈ ts := List.getElem?_mem ht
    have hfree' := hfree t hmem hi
    have hkk : k' ≠ k := fun he => by
      rw [he, hfree'] at hw
      exact Option.noConfusion hw
    show lookupK (insertK t.assignments k v) k' = some w
    rw [lookupK_insertK_ne _ _ hkk]
    exact hw
  · rw [ht'', if_neg hi]
    exact hw

theorem lookup_putB_preserved (bs : List Block) (eid : Nat) (k : Nat × Nat)
    (v : Nat)
    (hfree : ∀ b ∈ bs, b.id = eid → lookupK b.assignments k = none) :
    ∀ (n : Nat) (b b' : Block), bs[n]? = some b →
      (putB bs eid k v)[n]? = some b' →
      ∀ k' w, lookupK b.assignments k' = some w →
        lookupK b'.assignments k' = some w := by
  intro n b b' hb hb' k' w hw
  rw [putB, List.getElem?_map _ bs n, hb] at hb'
  have hb'' : b' = if b.id = eid then
      { b with assignments := insertK b.assignments k v } else b :=
    (Option.some.inj hb').symm
  by_cases hi : b.id = eid
  · rw [hb'', if_pos hi]
    have hmem : b ∈ bs := List.getElem?_mem hb
    have hfree' := hfree b hmem hi
    have hkk : k' ≠ k := fun he => by
      rw [he, hfree'] at hw
      exact Option.noConfusion hw
    show lookupK (insertK b.assignments k v) k' = some w
    rw [lookupK_insertK_ne _ _ hkk]
    exact hw
  · rw [hb'', if_neg hi]
    exact hw

theorem occupants_preserved_of_eq (s s' : State) (ht : s'.tables = s.tables)
    (hb : s'.chairBlocks = s.chairBlocks) : OccupantsPreserved s s' := by
  constructor
  · intro n t t' hn hn' k v hv
    rw [ht, hn] at hn'
    rw [← Option.some.inj hn']
    exact hv
  · intro n b b' hn hn' k v hv
    rw [hb, hn] at hn'
    rw [← Option.some.inj hn']
    exact hv

theorem occupants_preserved_forceAssign_t (disabled : List Nat) (st : State)
    (eid : Nat) (k : Nat) (att : Nat)
    (hfree : ∀ t ∈ st.tables, t.id = eid →
      lookupK t.assignments k = none) :
    OccupantsPreserved st (forceAssignSeat disabled st (.t eid k) att) := by
  rw [forceAssignSeat]
  by_cases hd : att ∈ disabled
  · rw [if_pos hd]
    exact occupants_preserved_of_eq st st rfl rfl
  rw [if_neg hd]
  constructor
  · intro n t t' hn hn' k' w hw
    exact lookup_putT_preserved st.tables eid k att hfree n t t' hn hn' k' w hw
  · intro n b b' hn hn' k' w hw
    rw [hn] at hn'
    rw [← Option.some.inj hn']
    exact hw

theorem occupants_preserved_forceAssign_b (disabled : List Nat) (st : State)
    (eid : Nat) (k : Nat × Nat) (att : Nat)
    (hfree : ∀ b ∈ st.chairBlocks, b.id = eid →
      lookupK b.assignments k = none) :
    OccupantsPreserved st (forceAssignSeat disabled st (.b eid k) att) := by
  rw [forceAssignSeat]
  by_cases hd : att ∈ disabled
  · rw [if_pos hd]
    exact occupants_preserved_of_eq st st rfl rfl
  rw [if_neg hd]
  constructor
  · intro n t t' hn hn' k' w hw
    rw [hn] at hn'
    rw [← Option.some.inj hn']
    exact hw
  · intro n b b' hn hn' k' w hw
    exact lookup_putB_preserved st.chairBlocks eid k att hfree n b b' hn hn'
      k' w hw

theorem occupants_preserved_assignNext (disabled : List Nat) (st : State)
    (etype : EKind) (eid : Nat) (att : Nat) (h : WFState st) :
    OccupantsPreserved st (assignNextAvailable disabled st etype eid att) := by
  obtain ⟨hids, hbids, _, _, _⟩ := h
  rw [assignNextAvailable.eq_def]
  by_cases hd : att ∈ disabled
  · rw [if_pos hd]
    exact occupants_preserved_of_eq st st rfl rfl
  rw [if_neg hd]
  by_cases ha : att ∈ buildAssignedSet st.tables st.chairBlocks
  · rw [if_pos ha]
    exact occupants_preserved_of_eq st st rfl rfl
  rw [if_neg ha]
  cases etype with
  | venue => exact occupants_preserved_of_eq st st rfl rfl
  | table =>
    cases hfind : st.tables.find? (fun t => t.id = eid) with
    | none => exact occupants_preserved_of_eq st st rfl rfl
    | some t₀ =>
      show OccupantsPreserved st
        (match (List.range (getTableTotalSeats t₀)).find?
            (fun k => lookupK t₀.assignments k = none) with
          | none => { st with status := "Table full" }
          | some k => forceAssignSeat disabled st (.t eid k) att)
      cases hopen : (List.range (getTableTotalSeats t₀)).find?
          (fun k => lookupK t₀.assignments k = none) with
      | none => exact occupants_preserved_of_eq st _ rfl rfl
      | some k =>
        have hk0 : lookupK t₀.assignments k = none := by
          have := List.find?_some hopen
          simpa using this
        have hid₀ : t₀.id = eid := by
          have := List.find?_some hfind
          simpa using this
        have hmem₀ : t₀ ∈ st.tables := List.mem_of_find?_eq_some hfind
        apply occupants_preserved_forceAssign_t
        intro t ht hti
        have : t = t₀ := mem_id_unique (·.id) st.tables hids t t₀ ht hmem₀
          (by show t.id = t₀.id; rw [hti, hid₀])
        rw [this]
        exact hk0
  | block =>
    cases hfind : st.chairBlocks.find? (fun b => b.id = eid) with
    | none => exact occupants_preserved_of_eq st st rfl rfl
    | some b₀ =>
      show OccupantsPreserved st
        (match (blockSeatKeys b₀.rows b₀.cols).find?
            (fun k => lookupK b₀.assignments k = none) with
          | none => { st with status := "Table full" }
          | some k => forceAssignSeat disabled st (.b eid k) att)
      cases hopen : (blockSeatKeys b₀.rows b₀.cols).find?
          (fun k => lookupK b₀.assignments k = none) with
      | none => exact occupants_preserved_of_eq st _ rfl rfl
      | some k =>
        have hk0 : lookupK b₀.assignments k = none := by
          have := List.find?_some hopen
          simpa using this
        have hid₀ : b₀.id = eid := by
          have := List.find?_some hfind
          simpa using this
        have hmem₀ : b₀ ∈ st.chairBlocks := List.mem_of_find?_eq_some hfind
        apply occupants_preserved_forceAssign_b
        intro b hb hbi
        have : b = b₀ := mem_id_unique (·.id) st.chairBlocks hbids b b₀ hb
          hmem₀ (by show b.id = b₀.id; rw [hbi, hid₀])
        rw [this]
        exact hk0

theorem occupants_preserved_fallback (disabled : List Nat) (st : State)
    (tableHit : Option (EKind × Nat)) (att : Nat) (h : WFState st) :
    OccupantsPreserved st (canvasDropFallback disabled st tableHit att) := by
  cases tableHit with
  | none => exact occupants_preserved_of_eq st st rfl rfl
  | some hit =>
    obtain ⟨ek, eid⟩ := hit
    cases ek with
    | table => exact occupants_preserved_assignNext disabled st .table eid att h
    | block => exact occupants_preserved_assignNext disabled st .block eid att h
    | venue => exact occupants_preserved_of_eq st st rfl rfl

theorem occupants_preserved_assign_free (disabled : List Nat) (st : State)
    (ref : SeatRef) (att : Nat) (h : WFState st)
    (hfree : seatOccupied st ref = false) :
    OccupantsPreserved st (assignAttendee disabled st ref att) := by
  obtain ⟨hids, hbids, _, _, _⟩ := h
  rw [assignAttendee.eq_def]
  by_cases hd : att ∈ disabled
  · rw [if_pos hd]
    exact occupants_preserved_of_eq st st rfl rfl
  rw [if_neg hd]
  by_cases ha : att ∈ buildAssignedSet st.tables st.chairBlocks
  · rw [if_pos ha]
    exact occupants_preserved_of_eq st _ rfl rfl
  rw [if_neg ha]
  cases ref with
  | t eid k =>
    have hfree' : ∀ t ∈ st.tables, t.id = eid →
        lookupK t.assignments k = none := by
      intro t ht hti
      rw [seatOccupied] at hfree
      cases hfind : st.tables.find? (fun t => t.id = eid) with
      | none =>
        exfalso
        rw [List.find?_eq_none] at hfind
        exact hfind t ht (by simp [hti])
      | some t₀ =>
        rw [hfind] at hfree
        have hid₀ : t₀.id = eid := by
          have := List.find?_some hfind
          simpa using this
        have hmem₀ : t₀ ∈ st.tables := List.mem_of_find?_eq_some hfind
        have heq : t = t₀ := mem_id_unique (·.id) st.tables hids t t₀ ht
          hmem₀ (by show t.id = t₀.id; rw [hti, hid₀])
        rw [heq]
        simpa [Option.isSome_iff_exists] using hfree
    constructor
    · intro n t t' hn hn' k' w hw
      exact lookup_putT_preserved st.tables eid k att hfree' n t t' hn hn'
        k' w hw
    · intro n b b' hn hn' k' w hw
      rw [hn] at hn'
      rw [← Option.some.inj hn']
      exact hw
  | b eid k =>
    have hfree' : ∀ b ∈ st.chairBlocks, b.id = eid →
        lookupK b.assignments k = none := by
      intro b hb hbi
      rw [seatOccupied] at hfree
      cases hfind : st.chairBlocks.find? (fun b => b.id = eid) with
      | none =>
        exfalso
        rw [List.find?_eq_none] at hfind
        exact hfind b hb (by simp [hbi])
      | some b₀ =>
        rw [hfind] at hfree
        have hid₀ : b₀.id = eid := by
          have := List.find?_some hfind
          simpa using this
        have hmem₀ : b₀ ∈ st.chairBlocks := List.mem_of_find?_eq_some hfind
        have heq : b = b₀ := mem_id_unique (·.id) st.chairBlocks hbids b b₀
          hb hmem₀ (by show b.id = b₀.id; rw [hbi, hid₀])
        rw [heq]
        simpa [Option.isSome_iff_exists] using hfree
    constructor
    · intro n t t' hn hn' k' w hw
      rw [hn] at hn'
      rw [← Option.some.inj hn']
      exact hw
    · intro n b b' hn hn' k' w hw
      exact lookup_putB_preserved st.chairBlocks eid k att hfree' n b b' hn
        hn' k' w hw

/-- C2 (amended): the non-forcing canvas drop never overwrites any occupied
seat's occupant.  The drop assigns directly only when the hit seat is
unoccupied; an occupied-seat drop falls back to auto-assigning the hit
entity's first *open* seat (not a no-op, and no `SeatOccupied` status
exists). -/
theorem canvas_drop_never_overwrites (disabled : List Nat) (st : State)
    (seatInfo : Option SeatRef) (tableHit : Option (EKind × Nat)) (att : Nat)
    (h : WFState st) :
    OccupantsPreserved st
      (canvasDropAttendee disabled st seatInfo tableHit att) := by
  cases seatInfo with
  | none => exact occupants_preserved_fallback disabled st tableHit att h
  | some ref =>
    rw [canvasDropAttendee]
    by_cases hocc : seatOccupied st ref = false
    · rw [if_pos hocc]
      exact occupants_preserved_assign_free disabled st ref att h hocc
    · rw [if_neg hocc]
      exact occupants_preserved_fallback disabled st tableHit att h

/-- C2 counterexample: the non-forcing assign operation called on an occupied
seat is *not* a no-op — with attendee 3 unseated and enabled, it overwrites
seat 0's occupant 7 with 3. -/
theorem assign_occupied_overwrites :
    ((assignAttendee [] occStateW (.t 1 0) 3).tables.map
      fun t => lookupK t.assignments 0) = [some 3] ∧
    (occStateW.tables.map fun t => lookupK t.assignments 0) = [some 7] := by
  decide

/-- C2 witness: the never-overwrites property of the canvas drop at a
concrete occupied-seat drop. -/
theorem canvas_drop_never_overwrites_witness :
    OccupantsPreserved occStateW
      (canvasDropAttendee [] occStateW (some (.t 1 0))
        (some (EKind.table, 1)) 3) :=
  canvas_drop_never_overwrites [] occStateW (some (.t 1 0))
    (some (EKind.table, 1)) 3 (by decide)

/-- C4 witness: hysteresis at a concrete session (a 0.3 ft move below the
threshold followed by a 1 ft crossing). -/
theorem drag_hysteresis_witness :
    (AllBelow [((3:ℚ)/10, (1:ℚ)/10), (1, 0)] →
      runSingleDrag true 1 60 40 (.tab tableW) 10 10
        ⟨mdStateW, false, 0⟩ [((3:ℚ)/10, (1:ℚ)/10), (1, 0)]
          = ⟨mdStateW, false, 0⟩ ∧
      runMultiDrag 60 40 [⟨EKind.table, 1, 10, 10⟩] ⟨mdStateW, false, 0⟩
        [((3:ℚ)/10, (1:ℚ)/10), (1, 0)] = ⟨mdStateW, false, 0⟩) ∧
    ((runSingleDrag true 1 60 40 (.tab tableW) 10 10 ⟨mdStateW, false, 0⟩
        [((3:ℚ)/10, (1:ℚ)/10), (1, 0)]).undoCount =
      if [((3:ℚ)/10, (1:ℚ)/10), (1, 0)].any (fun e => exceedsB e.1 e.2)
        then 1 else 0) ∧
    ((runMultiDrag 60 40 [⟨EKind.table, 1, 10, 10⟩] ⟨mdStateW, false, 0⟩
        [((3:ℚ)/10, (1:ℚ)/10), (1, 0)]).undoCount =
      if [((3:ℚ)/10, (1:ℚ)/10), (1, 0)].any (fun e => exceedsB e.1 e.2)
        then 1 else 0) ∧
    CheckpointAtFirstCross true 1 60 40 (.tab tableW) 10 10 mdStateW
      [((3:ℚ)/10, (1:ℚ)/10), (1, 0)] :=
  drag_hysteresis true 1 60 40 (.tab tableW) 10 10 mdStateW
    [⟨EKind.table, 1, 10, 10⟩] [((3:ℚ)/10, (1:ℚ)/10), (1, 0)] rfl

/-- C6: for every round table with at least one seat, the derived seat
positions are exactly `seats` points on the ring of radius
`tableRadius + seatRadius + gap` centered at the table center, seat index 0
due north of the center, successive indices proceeding clockwise by
`2 * pi / seats` radians (`360 / seats` degrees). -/
theorem round_table_seat_ring (t : Table) (scale ox oy : ℝ)
    (hseats : 0 < t.seats) (hround : t.tableType = TableType.round) :
    RoundSeatSpec t scale ox oy := by
  have hkey : ∀ i : Nat, roundSeatPos t scale ox oy i =
      ((roundTableCenter t scale ox oy).1 +
        roundSeatRingRadius t scale * Real.cos (seatAngle t.seats i),
       (roundTableCenter t scale ox oy).2 +
        roundSeatRingRadius t scale * Real.sin (seatAngle t.seats i)) := by
    intro i
    rfl
  have hidx : ∀ i : Nat, (roundSeatPositions t scale ox oy)[i]? =
      if i < t.seats then
        some ((roundTableCenter t scale ox oy).1 +
            roundSeatRingRadius t scale * Real.cos (seatAngle t.seats i),
          (roundTableCenter t scale ox oy).2 +
            roundSeatRingRadius t scale * Real.sin (seatAngle t.seats i))
      else none := by
    intro i
    by_cases hi : i < t.seats
    · rw [if_pos hi, roundSeatPositions, List.getElem?_map,
        List.getElem?_eq_getElem (by simpa using hi)]
      simp [List.getElem_range, hkey]
    · rw [if_neg hi, roundSeatPositions, List.getElem?_map,
        List.getElem?_eq_none (by simpa using Nat.le_of_not_lt hi)]
      rfl
  refine ⟨by simp [roundSeatPositions], ?_, ?_, ?_, hidx⟩
  · intro p hp
    rw [roundSeatPositions] at hp
    obtain ⟨i, _, hpi⟩ := List.mem_map.1 hp
    subst hpi
    rw [hkey i]
    have hs := Real.sin_sq_add_cos_sq (seatAngle t.seats i)
    simp only []
    linear_combination (roundSeatRingRadius t scale) ^ 2 * hs
  · rw [hidx 0, if_pos hseats]
    have h0 : seatAngle t.seats 0 = -(Real.pi / 2) := by
      rw [seatAngle]
      push_cast
      ring
    rw [h0, Real.cos_neg, Real.sin_neg, Real.cos_pi_div_two,
      Real.sin_pi_div_two]
    norm_num
    ring_nf
  · intro i
    have hn : (t.seats : ℝ) ≠ 0 := Nat.cast_ne_zero.2 hseats.ne'
    rw [seatAngle, seatAngle]
    push_cast
    field_simp
    ring

/-- C6 witness: the sample round table (8 seats) at scale 10 and zero canvas
offset satisfies the ring property. -/
theorem round_table_seat_ring_witness :
    0 < tableW.seats ∧ tableW.tableType = TableType.round ∧
      RoundSeatSpec tableW 10 0 0 :=
  ⟨by decide, rfl, round_table_seat_ring tableW 10 0 0 (by decide) rfl⟩

end Seating
